import Mathlib

/-!
Verification of the document-translation pipeline of `myTranslateProgram`.

The development shallowly embeds the data model and the operations of
`src/core/document_parser.py` and `src/core/translator.py`:

* Python dictionaries are embedded as insertion-ordered association lists
  (`dictUpdate`, `dictGet`), matching CPython semantics: updating an existing
  key keeps its position, a new key is appended at the end.
* `str.strip()` is embedded as `pyStrip` (drop leading and trailing
  whitespace), `str.startswith`/`endswith` as `pyStartsWith`/`pyEndsWith`.
* Network calls of the translators are the only external effect; they are
  embedded as function parameters returning `PyResult` (a normal return or a
  raised exception), so every code path of the Python functions is represented.
* Presentation-only attributes (colors, alignment enums, exact font objects)
  that no examined behavior branches on are kept as plain data fields.
-/

/-! ## Python string primitives -/

/-- Characters removed by Python `str.strip()` (whitespace). -/
def pyWs (c : Char) : Bool := c.isWhitespace

/-- Drop leading whitespace of a character list (`str.lstrip`). -/
def lstripChars (l : List Char) : List Char := l.dropWhile pyWs

/-- Drop trailing whitespace of a character list (`str.rstrip`). -/
def rstripChars (l : List Char) : List Char := (l.reverse.dropWhile pyWs).reverse

/-- Drop leading and trailing whitespace of a character list (`str.strip`). -/
def stripChars (l : List Char) : List Char := rstripChars (lstripChars l)

/-- Embedding of Python `str.strip()`. -/
def pyStrip (s : String) : String := ⟨stripChars s.data⟩

/-- Embedding of Python `str.startswith`. -/
def pyStartsWith (s p : String) : Bool := p.data.isPrefixOf s.data

/-- Embedding of Python `str.endswith`. -/
def pyEndsWith (s p : String) : Bool := p.data.isSuffixOf s.data

theorem rstripChars_cons_of_not_ws {c : Char} (hc : pyWs c = false) (t : List Char) :
    ∃ t', rstripChars (c :: t) = c :: t' := by
  unfold rstripChars
  rw [List.reverse_cons, List.dropWhile_append]
  rcases hd : t.reverse.dropWhile pyWs with _ | ⟨x, xs⟩
  · refine ⟨[], ?_⟩
    simp [List.dropWhile_cons, hc]
  · refine ⟨(x :: xs).reverse, ?_⟩
    simp

theorem lstripChars_cons_of_not_ws {c : Char} (hc : pyWs c = false) (t : List Char) :
    lstripChars (c :: t) = c :: t := by
  simp [lstripChars, List.dropWhile_cons, hc]

theorem stripChars_cons_of_not_ws {c : Char} (hc : pyWs c = false) (t : List Char) :
    ∃ t', stripChars (c :: t) = c :: t' := by
  unfold stripChars
  rw [lstripChars_cons_of_not_ws hc]
  exact rstripChars_cons_of_not_ws hc t

theorem lstripChars_head_not_ws : ∀ {l : List Char} {c : Char} {t : List Char},
    lstripChars l = c :: t → pyWs c = false
  | [], c, t, h => by simp [lstripChars] at h
  | x :: xs, c, t, h => by
    by_cases hx : pyWs x
    · exact lstripChars_head_not_ws (l := xs) (by simpa [lstripChars, List.dropWhile_cons, hx] using h)
    · simp only [lstripChars, List.dropWhile_cons, hx] at h
      simp only [Bool.false_eq_true, if_false] at h
      cases h
      simpa using hx

theorem rstripChars_last_not_ws {l : List Char} {c : Char} {t : List Char}
    (h : rstripChars l = t ++ [c]) : pyWs c = false := by
  unfold rstripChars at h
  have h2 : l.reverse.dropWhile pyWs = c :: t.reverse := by
    have := congrArg List.reverse h
    simpa using this
  rcases hl : l.reverse with _ | ⟨x, xs⟩
  · rw [hl] at h2; simp [List.dropWhile] at h2
  · rw [hl] at h2
    exact lstripChars_head_not_ws (l := x :: xs) h2

theorem rstripChars_idem (l : List Char) : rstripChars (rstripChars l) = rstripChars l := by
  rcases he : rstripChars l with _ | ⟨c, t⟩
  · simp [rstripChars, he]
  · rcases List.eq_nil_or_concat (c :: t) with h | ⟨t0, c0, h⟩
    · simp at h
    · rw [List.concat_eq_append] at h
      rw [h]
      have hws : pyWs c0 = false := rstripChars_last_not_ws (by rw [he, h])
      unfold rstripChars
      rw [List.reverse_append, List.reverse_cons, List.reverse_nil, List.nil_append,
        List.singleton_append, List.dropWhile_cons, hws]
      simp

theorem stripChars_idem (l : List Char) : stripChars (stripChars l) = stripChars l := by
  unfold stripChars
  rcases he : lstripChars l with _ | ⟨c, t⟩
  · simp [rstripChars, lstripChars, List.dropWhile]
  · have hc : pyWs c = false := lstripChars_head_not_ws he
    obtain ⟨t2, ht2⟩ := rstripChars_cons_of_not_ws hc t
    rw [ht2, lstripChars_cons_of_not_ws hc, ← ht2, rstripChars_idem]

theorem pyStrip_idem (s : String) : pyStrip (pyStrip s) = pyStrip s := by
  unfold pyStrip
  exact congrArg String.mk (stripChars_idem s.data)

theorem pyStrip_startsWith_eq {s : String} (h : pyStartsWith s "=" = true) :
    pyStartsWith (pyStrip s) "=" = true := by
  unfold pyStartsWith at h ⊢
  have hdata : ("=" : String).data = ['='] := rfl
  rw [hdata] at h ⊢
  rw [List.isPrefixOf_iff_prefix] at h
  obtain ⟨t, ht⟩ := h
  have hs : s.data = '=' :: t := by simpa using ht.symm
  unfold pyStrip
  show (['='].isPrefixOf (stripChars s.data)) = true
  rw [hs]
  obtain ⟨t', ht'⟩ := stripChars_cons_of_not_ws (c := '=') (by decide) t
  rw [ht']
  rw [List.isPrefixOf_iff_prefix]
  exact ⟨t', by simp⟩

/-! ## Python dictionaries as insertion-ordered association lists -/

/-- Embedding of `d[k] = f(d.get(k, dflt))` on a Python dict: replace in place
when the key is present, append otherwise. -/
def dictUpdate {κ α : Type} [DecidableEq κ] (d : List (κ × α)) (k : κ) (dflt : α)
    (f : α → α) : List (κ × α) :=
  match d with
  | [] => [(k, f dflt)]
  | (k', v) :: rest => if k' = k then (k', f v) :: rest else (k', v) :: dictUpdate rest k dflt f

/-- Embedding of `d[k] = v` on a Python dict. -/
def dictInsert {κ α : Type} [DecidableEq κ] (d : List (κ × α)) (k : κ) (v : α) :
    List (κ × α) :=
  dictUpdate d k v (fun _ => v)

/-- Embedding of `d.get(k, dflt)` / `d[k]` on a Python dict. -/
def dictGet {κ α : Type} [DecidableEq κ] (d : List (κ × α)) (k : κ) (dflt : α) : α :=
  match d with
  | [] => dflt
  | (k', v) :: rest => if k' = k then v else dictGet rest k dflt

theorem dictGet_dictUpdate_same {κ α : Type} [DecidableEq κ] (d : List (κ × α)) (k : κ)
    (dflt : α) (f : α → α) : dictGet (dictUpdate d k dflt f) k dflt = f (dictGet d k dflt) := by
  induction d with
  | nil => simp [dictUpdate, dictGet]
  | cons hd tl ih =>
    obtain ⟨k', v⟩ := hd
    by_cases h : k' = k
    · simp [dictUpdate, dictGet, h]
    · simp [dictUpdate, dictGet, h, ih]

theorem dictGet_dictUpdate_ne {κ α : Type} [DecidableEq κ] (d : List (κ × α)) {k k2 : κ}
    (hne : k2 ≠ k) (dflt dflt2 : α) (f : α → α) :
    dictGet (dictUpdate d k dflt f) k2 dflt2 = dictGet d k2 dflt2 := by
  induction d with
  | nil =>
    have hk : k ≠ k2 := Ne.symm hne
    simp [dictUpdate, dictGet, hk]
  | cons hd tl ih =>
    obtain ⟨k', v⟩ := hd
    by_cases h : k' = k
    · subst h
      have hk : k' ≠ k2 := Ne.symm hne
      simp [dictUpdate, dictGet, hk]
    · simp only [dictUpdate, if_neg h, dictGet]
      by_cases h2 : k' = k2
      · simp [h2]
      · simp [h2, ih]

theorem dictUpdate_keys {κ α : Type} [DecidableEq κ] (d : List (κ × α)) (k k2 : κ)
    (dflt : α) (f : α → α) :
    (k2 ∈ (dictUpdate d k dflt f).map Prod.fst) ↔ (k2 ∈ d.map Prod.fst ∨ k2 = k) := by
  induction d with
  | nil => simp [dictUpdate, eq_comm]
  | cons hd tl ih =>
    obtain ⟨k', v⟩ := hd
    by_cases h : k' = k
    · subst h
      simp [dictUpdate]
      tauto
    · simp only [dictUpdate, if_neg h, List.map_cons, List.mem_cons, ih]
      tauto

/-! ## Chunked iteration (`range(0, n, k)` slicing) -/

def chunksOf {α : Type} (k : Nat) (xs : List α) : List (List α) :=
  match k, xs with
  | 0, _ => []
  | _, [] => []
  | k + 1, x :: rest => (x :: rest).take (k + 1) :: chunksOf (k + 1) ((x :: rest).drop (k + 1))
termination_by xs.length
decreasing_by
  simp only [List.drop_succ_cons, List.length_drop, List.length_cons]
  omega

theorem chunksOf_nil {α : Type} (k : Nat) : chunksOf k ([] : List α) = [] := by
  cases k <;> simp [chunksOf]

theorem chunksOf_eq {α : Type} (k : Nat) (hk : 0 < k) (xs : List α) (hx : xs ≠ []) :
    chunksOf k xs = xs.take k :: chunksOf k (xs.drop k) := by
  match k, xs with
  | 0, _ => omega
  | k + 1, [] => exact absurd rfl hx
  | k + 1, x :: rest => simp [chunksOf]

theorem chunksOf_flatten {α : Type} (k : Nat) (hk : 0 < k) :
    ∀ xs : List α, (chunksOf k xs).flatten = xs := by
  intro xs
  generalize hn : xs.length = n
  induction n using Nat.strong_induction_on generalizing xs with
  | _ n ih =>
    by_cases hx : xs = []
    · subst hx; simp [chunksOf_nil]
    · rw [chunksOf_eq k hk xs hx, List.flatten_cons]
      rw [ih (xs.drop k).length ?_ (xs.drop k) rfl]
      · exact List.take_append_drop k xs
      · subst hn
        have := List.length_pos.mpr hx
        simp only [List.length_drop]
        omega

theorem chunksOf_getElem {α : Type} (k : Nat) (hk : 0 < k) :
    ∀ (xs : List α) (i : Nat), (chunksOf k xs)[i]? =
      if (xs.drop (k * i)).isEmpty then none else some ((xs.drop (k * i)).take k) := by
  intro xs
  generalize hn : xs.length = n
  induction n using Nat.strong_induction_on generalizing xs with
  | _ n ih =>
    intro i
    by_cases hx : xs = []
    · subst hx; simp [chunksOf_nil]
    · rw [chunksOf_eq k hk xs hx]
      cases i with
      | zero => simp [hx]
      | succ j =>
        rw [List.getElem?_cons_succ]
        rw [ih (xs.drop k).length ?_ (xs.drop k) rfl j]
        · simp only [List.drop_drop]
          ring_nf
        · subst hn
          have := List.length_pos.mpr hx
          simp only [List.length_drop]
          omega

theorem chunksOf_mem {α : Type} (k : Nat) (hk : 0 < k) :
    ∀ (xs : List α) (c : List α), c ∈ chunksOf k xs → c.length ≤ k ∧ c ≠ [] := by
  intro xs
  generalize hn : xs.length = n
  induction n using Nat.strong_induction_on generalizing xs with
  | _ n ih =>
    intro c hc
    by_cases hx : xs = []
    · subst hx; simp [chunksOf_nil] at hc
    · rw [chunksOf_eq k hk xs hx] at hc
      rcases List.mem_cons.mp hc with h | h
      · subst h
        refine ⟨by simp, ?_⟩
        intro hnil
        have := congrArg List.length hnil
        simp only [List.length_take, List.length_nil] at this
        have := List.length_pos.mpr hx
        omega
      · refine ih (xs.drop k).length ?_ (xs.drop k) rfl c h
        subst hn
        have := List.length_pos.mpr hx
        simp only [List.length_drop]
        omega

/-- Embedding of Python `enumerate` starting at index `i`. -/
def pyEnumFrom {α : Type} (i : Nat) : List α → List (Nat × α)
  | [] => []
  | x :: xs => (i, x) :: pyEnumFrom (i + 1) xs

/-- Embedding of Python `enumerate`. -/
def pyEnum {α : Type} (l : List α) : List (Nat × α) := pyEnumFrom 0 l

theorem mem_pyEnumFrom {α : Type} {x : Nat × α} :
    ∀ {i : Nat} {l : List α}, x ∈ pyEnumFrom i l → x.2 ∈ l := by
  intro i l
  induction l generalizing i with
  | nil => intro h; simp [pyEnumFrom] at h
  | cons y ys ih =>
    intro h
    rcases List.mem_cons.mp h with h | h
    · subst h; simp
    · exact List.mem_cons.mpr (Or.inr (ih h))

theorem mem_pyEnum {α : Type} {x : Nat × α} {l : List α} (h : x ∈ pyEnum l) : x.2 ∈ l :=
  mem_pyEnumFrom h

/-! ## Data model: locations, fragments, document content
(`document_parser.py`, class `DocumentContent`) -/

/-- Embedding of the `location_info` dictionaries built by the four readers.
Each reader fills only the keys of its format; absent keys are `none`.
`dictGet`-style access with a default embeds Python `location.get(key, dflt)`. -/
structure Location where
  sheet : Option String := none
  row : Option Nat := none
  column : Option Nat := none
  coordinate : Option String := none
  paragraph_index : Option Nat := none
  style : Option String := none
  table_index : Option Nat := none
  row_index : Option Nat := none
  cell_index : Option Nat := none
  element_type : Option String := none
  slide_index : Option Nat := none
  shape_index : Option Nat := none
  shape_type : Option String := none
  page_number : Option Nat := none
deriving DecidableEq, Repr

/-- One run entry of a paragraph's `formatting['runs']` list. Run-level font
attributes are presentation-only and are not carried. -/
structure RunFmt where
  text : String
deriving DecidableEq, Repr

/-- Embedding of the `formatting` dictionaries. Font attributes captured by the
tabular reader and the run list captured by the flow-text reader are kept;
remaining presentation attributes (alignment enums, shape names) are dropped,
as no verified behavior reads them. -/
structure Formatting where
  font_name : Option String := none
  font_size : Option Nat := none
  font_bold : Bool := false
  font_italic : Bool := false
  runs : List RunFmt := []
deriving DecidableEq, Repr

/-- One entry of `DocumentContent.text_content`. -/
structure Fragment where
  text : String
  location : Location := {}
  formatting : Formatting := {}
deriving DecidableEq, Repr

/-- Embedding of class `DocumentContent` (document_parser.py lines 49-65).
`formatting_info` and `metadata` stay empty throughout the program and are
omitted. -/
structure DocumentContent where
  content_type : String := ""
  original_format : String := ""
  text_content : List Fragment := []
deriving DecidableEq, Repr

/-- Embedding of `DocumentContent.add_text_block` (lines 59-65): appends
unconditionally; there is no emptiness check in the method itself. -/
def DocumentContent.add_text_block (c : DocumentContent) (text : String)
    (location : Location := {}) (formatting : Formatting := {}) : DocumentContent :=
  { c with text_content :=
      c.text_content ++ [{ text := text, location := location, formatting := formatting }] }

/-! ## Translation results and the manager pipeline
(`translator.py`, `TranslationResult` and `TranslatorManager.translate_content`) -/

/-- Embedding of dataclass `TranslationResult` (translator.py lines 35-42).
The `confidence` field (a float constant per provider, never read by any
behavior under verification) is omitted. -/
structure TranslationResult where
  success : Bool
  translated_text : String := ""
  error_message : String := ""
  original_text : String := ""
deriving DecidableEq, Repr

/-- Embedding of the text-collection loop of `translate_content`
(translator.py lines 440-445): a block whose stripped text is nonempty
contributes its raw text, any other block contributes the empty string. -/
def texts_to_translate (content : DocumentContent) : List String :=
  content.text_content.map fun b => if pyStrip b.text ≠ "" then b.text else ""

/-- Embedding of the result-application loop of `translate_content`
(translator.py lines 477-484): block `i` is overwritten with
`results[i].translated_text` when `i < len(results)` and `results[i].success`,
and kept unchanged otherwise. -/
def apply_results (blocks : List Fragment) (results : List TranslationResult) :
    List Fragment :=
  List.zipWith
    (fun b r => if r.success then { b with text := r.translated_text } else b)
    blocks results
  ++ blocks.drop results.length

/-- Embedding of the `success_count` accumulation of `translate_content`
(lines 477-486): successes are counted only at indices below the number of
blocks. -/
def success_count (blocks : List Fragment) (results : List TranslationResult) : Nat :=
  ((results.take blocks.length).filter (fun r => r.success)).length

/-- The batches `translate_content` submits to the translator (lines 454-474):
chunks of ten texts when more than ten fragments are present, a single batch
otherwise. -/
def batchPlan (texts : List String) : List (List String) :=
  if texts.length > 10 then chunksOf 10 texts else [texts]

/-- The `translation_results` list of `translate_content` (lines 451-474):
the concatenation of the per-chunk batch results when more than ten texts are
present, one whole-list batch call otherwise. -/
def translateResults (tb : List String → List TranslationResult)
    (content : DocumentContent) : List TranslationResult :=
  if (texts_to_translate content).length > 10
  then ((chunksOf 10 (texts_to_translate content)).map tb).flatten
  else tb (texts_to_translate content)

/-- Embedding of `TranslatorManager.translate_content` (translator.py lines
427-492). The selected translator's `translate_batch` method is the parameter
`tb`; translator initialization failures are outside this embedding (they
return `None` before any fragment is touched). The in-place mutation of
`content.text_content` is embedded by returning the updated content; `None` is
returned exactly when no block was successfully translated. -/
def translate_content (tb : List String → List TranslationResult)
    (content : DocumentContent) : Option DocumentContent :=
  if (texts_to_translate content).isEmpty then some content
  else
    if 0 < success_count content.text_content (translateResults tb content) then
      some { content with
        text_content := apply_results content.text_content (translateResults tb content) }
    else
      none

theorem translate_content_results (tb : List String → List TranslationResult)
    (content : DocumentContent) :
    translateResults tb content
      = ((batchPlan (texts_to_translate content)).map tb).flatten := by
  unfold translateResults batchPlan
  by_cases h : (texts_to_translate content).length > 10 <;> simp [h]

theorem apply_results_nil_right (blocks : List Fragment) :
    apply_results blocks [] = blocks := by
  simp [apply_results]

theorem apply_results_nil_left (results : List TranslationResult) :
    apply_results [] results = [] := by
  simp [apply_results]

theorem apply_results_cons (b : Fragment) (blocks : List Fragment)
    (r : TranslationResult) (results : List TranslationResult) :
    apply_results (b :: blocks) (r :: results) =
      (if r.success then { b with text := r.translated_text } else b)
        :: apply_results blocks results := by
  simp [apply_results]

theorem apply_results_length (blocks : List Fragment)
    (results : List TranslationResult) :
    (apply_results blocks results).length = blocks.length := by
  simp only [apply_results, List.length_append, List.length_zipWith, List.length_drop]
  omega

theorem apply_results_location (blocks : List Fragment)
    (results : List TranslationResult) (i : Nat) :
    ((apply_results blocks results)[i]?).map Fragment.location
      = (blocks[i]?).map Fragment.location := by
  induction blocks generalizing results i with
  | nil => simp [apply_results_nil_left]
  | cons b bs ih =>
    cases results with
    | nil => simp [apply_results_nil_right]
    | cons r rs =>
      rw [apply_results_cons]
      cases i with
      | zero =>
        by_cases h : r.success <;> simp [h]
      | succ j => simpa using ih rs j

theorem apply_results_formatting (blocks : List Fragment)
    (results : List TranslationResult) (i : Nat) :
    ((apply_results blocks results)[i]?).map Fragment.formatting
      = (blocks[i]?).map Fragment.formatting := by
  induction blocks generalizing results i with
  | nil => simp [apply_results_nil_left]
  | cons b bs ih =>
    cases results with
    | nil => simp [apply_results_nil_right]
    | cons r rs =>
      rw [apply_results_cons]
      cases i with
      | zero =>
        by_cases h : r.success <;> simp [h]
      | succ j => simpa using ih rs j

theorem apply_results_text_success (blocks : List Fragment)
    (results : List TranslationResult) (i : Nat) (res : TranslationResult)
    (hi : i < blocks.length) (hr : results[i]? = some res) (hs : res.success = true) :
    ((apply_results blocks results)[i]?).map Fragment.text
      = some res.translated_text := by
  induction blocks generalizing results i with
  | nil => simp at hi
  | cons b bs ih =>
    cases results with
    | nil => simp at hr
    | cons r rs =>
      rw [apply_results_cons]
      cases i with
      | zero =>
        simp only [List.getElem?_cons_zero, Option.some.injEq] at hr
        subst hr
        simp [hs]
      | succ j =>
        simp only [List.getElem?_cons_succ] at hr
        simpa using ih rs j (by simpa using hi) hr

theorem apply_results_text_failure (blocks : List Fragment)
    (results : List TranslationResult) (i : Nat) (res : TranslationResult)
    (hr : results[i]? = some res) (hs : res.success = false) :
    ((apply_results blocks results)[i]?).map Fragment.text
      = (blocks[i]?).map Fragment.text := by
  induction blocks generalizing results i with
  | nil => simp [apply_results_nil_left]
  | cons b bs ih =>
    cases results with
    | nil => simp at hr
    | cons r rs =>
      rw [apply_results_cons]
      cases i with
      | zero =>
        simp only [List.getElem?_cons_zero, Option.some.injEq] at hr
        subst hr
        simp [hs]
      | succ j =>
        simp only [List.getElem?_cons_succ] at hr
        simpa using ih rs j hr

/-! ## Format readers (`DocumentParser.parse_*`) -/

/-- Bijective base-26 column letters (fuel recursion; the first argument is a
fuel bound that the second never exceeds). -/
def colLetterAux : Nat → Nat → List Char
  | _, 0 => []
  | 0, _ + 1 => []
  | fuel + 1, n + 1 => colLetterAux fuel (n / 26) ++ [Char.ofNat ('A'.toNat + n % 26)]

/-- Bijective base-26 column letters, as used by `openpyxl` coordinates. -/
def colLetter (n : Nat) : List Char := colLetterAux n n

/-- Fuel-driven splitting of a character list on a nonempty separator,
matching Python `str.split(sep)`. -/
def splitAux (sep : List Char) : Nat → List Char → List Char → List (List Char)
  | _, acc, [] => [acc.reverse]
  | 0, acc, l => [acc.reverse ++ l]
  | fuel + 1, acc, c :: rest =>
    if sep.isPrefixOf (c :: rest) then
      acc.reverse :: splitAux sep fuel [] ((c :: rest).drop sep.length)
    else
      splitAux sep fuel (c :: acc) rest

/-- Embedding of Python `str.split(sep)` for a nonempty separator. -/
def pySplit (s sep : String) : List String :=
  (splitAux sep.data s.data.length [] s.data).map String.mk

/-- The `cell.coordinate` string of `openpyxl`, determined by row and column. -/
def coordOf (r c : Nat) : String := String.mk (colLetter c) ++ toString r

/-- One spreadsheet cell as surfaced by `openpyxl` with `data_only=True`:
`value` is the displayed value rendered through `str()` (`none` embeds Python
`None`), `row`/`column` are the 1-based indices. -/
structure ExcelCell where
  value : Option String
  row : Nat
  column : Nat
  font_name : Option String := none
  font_size : Option Nat := none
  font_bold : Bool := false
  font_italic : Bool := false
deriving DecidableEq, Repr

structure ExcelSheet where
  name : String
  rows : List (List ExcelCell)
deriving DecidableEq, Repr

structure ExcelWorkbook where
  sheets : List ExcelSheet
deriving DecidableEq, Repr

/-- The fragments contributed by one cell in `parse_excel` (document_parser.py
lines 118-137): skip `None` values and values blank after stripping, then skip
formula text (leading `=`); otherwise add the stripped text with the cell's
location and font formatting. -/
def excelCellBlocks (sheetName : String) (cell : ExcelCell) : List Fragment :=
  match cell.value with
  | none => []
  | some v =>
    if pyStrip v = "" then []
    else
      let cell_text := pyStrip v
      if cell_text ≠ "" ∧ pyStartsWith cell_text "=" = false then
        [{ text := cell_text,
           location := { sheet := some sheetName, row := some cell.row,
                         column := some cell.column,
                         coordinate := some (coordOf cell.row cell.column) },
           formatting := { font_name := cell.font_name, font_size := cell.font_size,
                           font_bold := cell.font_bold, font_italic := cell.font_italic } }]
      else []

/-- Embedding of `DocumentParser.parse_excel` (lines 102-144): iterate sheets,
rows and cells in order, appending each cell's blocks. -/
def parse_excel (wb : ExcelWorkbook) : DocumentContent :=
  { content_type := "excel", original_format := ".xlsx",
    text_content := wb.sheets.flatMap fun sh =>
      sh.rows.flatMap fun row => row.flatMap fun cell => excelCellBlocks sh.name cell }

structure WordRun where
  text : String
deriving DecidableEq, Repr

structure WordParagraph where
  text : String
  style : Option String := none
  runs : List WordRun := []
deriving DecidableEq, Repr

/-- A word-processor document as surfaced by `python-docx`: its paragraph list
and its tables (each a list of rows, each row a list of cell texts). -/
structure WordDoc where
  paragraphs : List WordParagraph := []
  tables : List (List (List String)) := []
deriving DecidableEq, Repr

/-- The fragments contributed by one paragraph in `parse_word` (lines
158-185): skipped when blank after stripping; the raw (unstripped) paragraph
text is stored, with the runs whose text is nonempty after stripping. -/
def wordParagraphBlocks (i : Nat) (p : WordParagraph) : List Fragment :=
  if pyStrip p.text = "" then []
  else
    [{ text := p.text,
       location := { paragraph_index := some i, style := p.style },
       formatting := { runs :=
          (p.runs.filter fun r => pyStrip r.text ≠ "").map fun r => { text := r.text } } }]

/-- The fragments contributed by one table cell in `parse_word` (lines
188-199): skipped when blank after stripping, else the stripped text is stored
with a `table_cell` location. -/
def wordTableCellBlocks (ti ri ci : Nat) (ctext : String) : List Fragment :=
  if pyStrip ctext = "" then []
  else
    [{ text := pyStrip ctext,
       location := { table_index := some ti, row_index := some ri, cell_index := some ci,
                     element_type := some "table_cell" } }]

/-- Embedding of `DocumentParser.parse_word` (lines 146-205): paragraphs in
order, then all table cells in table/row/cell order. -/
def parse_word (doc : WordDoc) : DocumentContent :=
  { content_type := "word", original_format := ".docx",
    text_content :=
      ((pyEnum doc.paragraphs).flatMap fun ip => wordParagraphBlocks ip.1 ip.2)
      ++ ((pyEnum doc.tables).flatMap fun it =>
            (pyEnum it.2).flatMap fun ir =>
              (pyEnum ir.2).flatMap fun ic => wordTableCellBlocks it.1 ir.1 ic.1 ic.2) }

structure PptParagraph where
  text : String
deriving DecidableEq, Repr

/-- One slide shape as surfaced by `python-pptx`: `has_text` embeds
`hasattr(shape, "text")`, `has_text_frame` embeds `hasattr(shape,
"text_frame")`, `text` is the shape's whole text and `paragraphs` the text
frame's paragraphs. -/
structure PptShape where
  has_text : Bool := true
  text : String := ""
  shape_type : String := ""
  has_text_frame : Bool := true
  paragraphs : List PptParagraph := []
deriving DecidableEq, Repr

structure PptPresentation where
  slides : List (List PptShape)
deriving DecidableEq, Repr

/-- The fragments contributed by one shape in `parse_powerpoint` (lines
220-261): shapes without text or blank after stripping are skipped; with a
text frame, one fragment per paragraph nonempty after stripping (raw paragraph
text stored); without one, a single fragment with the shape's raw text. -/
def pptShapeBlocks (si shi : Nat) (sh : PptShape) : List Fragment :=
  if sh.has_text ∧ pyStrip sh.text ≠ "" then
    if sh.has_text_frame then
      (pyEnum sh.paragraphs).flatMap fun ip =>
        if pyStrip ip.2.text ≠ "" then
          [{ text := ip.2.text,
             location := { slide_index := some si, shape_index := some shi,
                           shape_type := some sh.shape_type,
                           paragraph_index := some ip.1 } }]
        else []
    else
      [{ text := sh.text,
         location := { slide_index := some si, shape_index := some shi,
                       shape_type := some sh.shape_type } }]
  else []

/-- Embedding of `DocumentParser.parse_powerpoint` (lines 207-267). -/
def parse_powerpoint (prs : PptPresentation) : DocumentContent :=
  { content_type := "powerpoint", original_format := ".pptx",
    text_content := (pyEnum prs.slides).flatMap fun isl =>
      (pyEnum isl.2).flatMap fun ish => pptShapeBlocks isl.1 ish.1 ish.2 }

/-- Outcome of a Python call: a value, or a raised exception with its message. -/
inductive PyResult (α : Type) where
  | ok (val : α)
  | exc (msg : String)
deriving DecidableEq, Repr

/-- One PDF page; `extract` embeds `page.extract_text()`, which may raise. -/
structure PdfPage where
  extract : PyResult String
deriving DecidableEq, Repr

structure PdfDoc where
  pages : List PdfPage
deriving DecidableEq, Repr

/-- The fragments contributed by one page in `parse_pdf` (lines 282-302): a
page whose extraction raises is logged and skipped; otherwise the page text is
split on blank lines and each chunk nonempty after stripping is stored
stripped, tagged with the 1-based page number. -/
def pdfPageBlocks (pageIdx : Nat) (pg : PdfPage) : List Fragment :=
  match pg.extract with
  | .exc _ => []
  | .ok page_text =>
    if pyStrip page_text = "" then []
    else
      (pyEnum (pySplit page_text "\n\n")).flatMap fun ip =>
        if pyStrip ip.2 ≠ "" then
          [{ text := pyStrip ip.2,
             location := { paragraph_index := some ip.1,
                           element_type := some "page_text",
                           page_number := some (pageIdx + 1) } }]
        else []

/-- Embedding of `DocumentParser.parse_pdf` (lines 269-308). -/
def parse_pdf (doc : PdfDoc) : DocumentContent :=
  { content_type := "pdf", original_format := ".pdf",
    text_content := (pyEnum doc.pages).flatMap fun ip => pdfPageBlocks ip.1 ip.2 }

/-- `DocumentParser.supported_formats` (line 73). -/
def supported_formats : List String := [".xlsx", ".docx", ".pptx", ".pdf"]

/-- The file system facts `parse_document` consults for one path: existence,
the lower-cased extension, and what each document library would surface for
the file (`none` embeds a library-level parse failure, which the
corresponding `parse_*` method catches, returning `None`). -/
structure PyFile where
  fileExists : Bool
  ext : String
  excelData : Option ExcelWorkbook := none
  wordData : Option WordDoc := none
  pptData : Option PptPresentation := none
  pdfData : Option PdfDoc := none
deriving Repr

/-- The body of `DocumentParser.parse_document` (lines 75-97) before its
`except` clause: raises `FileNotFoundError` for a missing path, `ValueError`
for an unsupported extension, and otherwise dispatches on the extension. -/
def parse_document_inner (f : PyFile) : PyResult (Option DocumentContent) :=
  if f.fileExists = false then .exc "FileNotFoundError"
  else if (supported_formats.contains f.ext) = false then .exc "ValueError"
  else if f.ext = ".xlsx" then .ok (f.excelData.map parse_excel)
  else if f.ext = ".docx" then .ok (f.wordData.map parse_word)
  else if f.ext = ".pptx" then .ok (f.pptData.map parse_powerpoint)
  else if f.ext = ".pdf" then .ok (f.pdfData.map parse_pdf)
  else .exc "ValueError"

/-- Embedding of `DocumentParser.parse_document` (lines 75-100): every
exception raised by the body is caught, logged and turned into `None`. -/
def parse_document (f : PyFile) : Option DocumentContent :=
  match parse_document_inner f with
  | .ok r => r
  | .exc _ => none

/-! ## Additional dictionary lemmas for the writers -/

theorem dictUpdate_of_not_mem_keys {κ α : Type} [DecidableEq κ] {d : List (κ × α)} {k : κ}
    (h : k ∉ d.map Prod.fst) (dflt : α) (f : α → α) :
    dictUpdate d k dflt f = d ++ [(k, f dflt)] := by
  induction d with
  | nil => simp [dictUpdate]
  | cons hd tl ih =>
    obtain ⟨k', v⟩ := hd
    simp only [List.map_cons, List.mem_cons] at h
    push_neg at h
    simp only [dictUpdate, if_neg (Ne.symm h.1)]
    rw [ih h.2]
    simp

theorem dictUpdate_keys_nodup {κ α : Type} [DecidableEq κ] {d : List (κ × α)}
    (h : (d.map Prod.fst).Nodup) (k : κ) (dflt : α) (f : α → α) :
    ((dictUpdate d k dflt f).map Prod.fst).Nodup := by
  induction d with
  | nil => simp [dictUpdate]
  | cons hd tl ih =>
    obtain ⟨k', v⟩ := hd
    simp only [List.map_cons, List.nodup_cons] at h
    by_cases hk : k' = k
    · simp only [dictUpdate, if_pos hk, List.map_cons, List.nodup_cons]
      exact ⟨h.1, h.2⟩
    · simp only [dictUpdate, if_neg hk, List.map_cons, List.nodup_cons]
      refine ⟨?_, ih h.2⟩
      intro hmem
      rcases (dictUpdate_keys tl k k' dflt f).mp hmem with hm | hm
      · exact h.1 hm
      · exact hk hm

theorem dictGet_of_mem_nodup {κ α : Type} [DecidableEq κ] {d : List (κ × α)}
    (h : (d.map Prod.fst).Nodup) {k : κ} {vs : α} (hm : (k, vs) ∈ d) (dflt : α) :
    dictGet d k dflt = vs := by
  induction d with
  | nil => simp at hm
  | cons hd tl ih =>
    obtain ⟨k', v⟩ := hd
    simp only [List.map_cons, List.nodup_cons] at h
    rcases List.mem_cons.mp hm with hm1 | hm1
    · rw [Prod.mk.injEq] at hm1
      obtain ⟨h1, h2⟩ := hm1
      subst h1
      subst h2
      simp [dictGet]
    · have hk : k' ≠ k := by
        intro hkk
        subst hkk
        exact h.1 (List.mem_map.mpr ⟨(k', vs), hm1, rfl⟩)
      simp only [dictGet, if_neg hk]
      exact ih h.2 hm1

/-- Grouping by a key with `dictUpdate`-append yields, at every key, exactly
the sublist of elements with that key, in order. -/
theorem foldl_group_get {κ β : Type} [DecidableEq κ] (key : β → κ) :
    ∀ (l : List β) (acc : List (κ × List β)) (k : κ),
      dictGet (l.foldl (fun d b => dictUpdate d (key b) [] (fun bs => bs ++ [b])) acc) k []
        = dictGet acc k [] ++ (l.filter fun b => decide (key b = k)) := by
  intro l
  induction l with
  | nil => intro acc k; simp
  | cons b bs ih =>
    intro acc k
    simp only [List.foldl_cons]
    rw [ih]
    by_cases hk : key b = k
    · subst hk
      rw [dictGet_dictUpdate_same]
      simp [List.filter_cons]
    · rw [dictGet_dictUpdate_ne _ (Ne.symm hk)]
      simp [List.filter_cons, hk]

theorem foldl_group_keys {κ β : Type} [DecidableEq κ] (key : β → κ) :
    ∀ (l : List β) (acc : List (κ × List β)) (k : κ),
      (k ∈ (l.foldl (fun d b => dictUpdate d (key b) [] (fun bs => bs ++ [b])) acc).map Prod.fst)
        ↔ (k ∈ acc.map Prod.fst ∨ ∃ b ∈ l, key b = k) := by
  intro l
  induction l with
  | nil => intro acc k; simp
  | cons b bs ih =>
    intro acc k
    simp only [List.foldl_cons]
    rw [ih, dictUpdate_keys]
    constructor
    · rintro ((h | h) | h)
      · exact Or.inl h
      · exact Or.inr ⟨b, by simp, h.symm⟩
      · obtain ⟨b2, hb2, hk2⟩ := h
        exact Or.inr ⟨b2, by simp [hb2], hk2⟩
    · rintro (h | ⟨b2, hb2, hk2⟩)
      · exact Or.inl (Or.inl h)
      · rcases List.mem_cons.mp hb2 with h2 | h2
        · subst h2; exact Or.inl (Or.inr hk2.symm)
        · exact Or.inr ⟨b2, h2, hk2⟩

theorem foldl_group_keys_nodup {κ β : Type} [DecidableEq κ] (key : β → κ) :
    ∀ (l : List β) (acc : List (κ × List β)),
      (acc.map Prod.fst).Nodup →
      ((l.foldl (fun d b => dictUpdate d (key b) [] (fun bs => bs ++ [b])) acc).map Prod.fst).Nodup := by
  intro l
  induction l with
  | nil => intro acc h; simpa using h
  | cons b bs ih =>
    intro acc h
    simp only [List.foldl_cons]
    exact ih _ (dictUpdate_keys_nodup h _ _ _)

theorem foldl_dictInsert_eq_map {κ α β : Type} [DecidableEq κ]
    (keyf : β → κ) (valf : β → α) :
    ∀ (l : List β) (acc : List (κ × α)),
      (∀ b ∈ l, keyf b ∉ acc.map Prod.fst) → (l.map keyf).Nodup →
      l.foldl (fun d b => dictInsert d (keyf b) (valf b)) acc
        = acc ++ l.map (fun b => (keyf b, valf b)) := by
  intro l
  induction l with
  | nil => intro acc _ _; simp
  | cons b bs ih =>
    intro acc hfresh hnodup
    simp only [List.foldl_cons]
    have hstep : dictInsert acc (keyf b) (valf b) = acc ++ [(keyf b, valf b)] := by
      unfold dictInsert
      exact dictUpdate_of_not_mem_keys (hfresh b (by simp)) _ _
    rw [hstep]
    simp only [List.map_cons, List.nodup_cons] at hnodup
    rw [ih (acc ++ [(keyf b, valf b)]) ?_ hnodup.2]
    · simp
    · intro b2 hb2
      simp only [List.map_append, List.mem_append]
      push_neg
      refine ⟨hfresh b2 (by simp [hb2]), ?_⟩
      simp only [List.map_cons, List.map_nil, List.mem_singleton]
      intro hx
      exact hnodup.1 (hx ▸ List.mem_map.mpr ⟨b2, hb2, rfl⟩)

/-! ## Native-preserving writers (`DocumentParser.save_as_*_original`) -/

/-- Python `location.get('sheet', 'Sheet1')` (line 343). -/
def sheetKey (b : Fragment) : String := b.location.sheet.getD "Sheet1"

/-- Python `location.get('row', 1)` and `location.get('column', 1)`
(lines 356-357). -/
def cellAddr (b : Fragment) : Nat × Nat := (b.location.row.getD 1, b.location.column.getD 1)

/-- The `sheet_data` dictionary of `save_as_excel_original` (lines 340-348). -/
def groupBySheet (blocks : List Fragment) : List (String × List Fragment) :=
  blocks.foldl (fun d b => dictUpdate d (sheetKey b) [] (fun bs => bs ++ [b])) []

/-- Embedding of `DocumentParser.save_as_excel_original` (lines 328-377): one
worksheet per sheet name in first-seen order, each block's text written at its
recorded cell address (a later block at the same address overwrites). The
value written is the fragment's text; font styling (lines 363-370) touches no
cell value and is not modeled. -/
def save_as_excel_original (content : DocumentContent) :
    List (String × List ((Nat × Nat) × String)) :=
  (groupBySheet content.text_content).map fun sv =>
    (sv.1, sv.2.foldl (fun cells b => dictInsert cells (cellAddr b) b.text) [])

/-- Python `location.get('element_type') == 'table_cell'` (line 393). -/
def isTableCellBlock (b : Fragment) : Bool :=
  decide (b.location.element_type = some "table_cell")

/-- Python `x['location'].get('paragraph_index', 0)` (line 399). -/
def paraSortKey (b : Fragment) : Nat := b.location.paragraph_index.getD 0

/-- Stable insertion into a prefix sorted by `paraSortKey`: the new element
goes after every element with key less than or equal to its own, matching the
stability of Python `list.sort`. -/
def insertStableByKey (x : Fragment) : List Fragment → List Fragment
  | [] => [x]
  | y :: ys => if paraSortKey y ≤ paraSortKey x then y :: insertStableByKey x ys
               else x :: y :: ys

/-- Embedding of `paragraphs.sort(key=...)` (line 399): stable sort by
paragraph index. -/
def sortByParaKey (l : List Fragment) : List Fragment :=
  l.foldl (fun acc x => insertStableByKey x acc) []

/-- The run texts emitted for one paragraph block (lines 400-421): the
recorded runs when any exist, else a single run with the block's whole text. -/
def wordParagraphOut (b : Fragment) : List String :=
  if b.formatting.runs.isEmpty then [b.text]
  else b.formatting.runs.map RunFmt.text

/-- The `table_data` nested dictionary of `save_as_word_original` (lines
425-437): table index to row index to cell index to text. -/
def wordTableData (tblocks : List Fragment) :
    List (Nat × List (Nat × List (Nat × String))) :=
  tblocks.foldl (fun td b =>
    dictUpdate td (b.location.table_index.getD 0) []
      (fun rows => dictUpdate rows (b.location.row_index.getD 0) []
        (fun cells => dictInsert cells (b.location.cell_index.getD 0) b.text))) []

/-- Python `max_cols = max(len(row) for row in table_rows.values()) if
table_rows else 1` (line 440): the maximum count of populated cells over the
rows present. -/
def maxColsOf (rowsD : List (Nat × List (Nat × String))) : Nat :=
  if rowsD.isEmpty then 1
  else (rowsD.map fun rv => rv.2.length).foldl max 0

/-- Write one table cell text into the grid at (row, column). -/
def setGridCell (g : List (List String)) (r c : Nat) (t : String) :
    List (List String) :=
  g.set r ((g.getD r []).set c t)

/-- The table built for one `table_data` entry (lines 440-446): a grid with
`len(table_rows)` rows and `max_cols` columns of initially empty cells
(`doc.add_table`), each recorded cell text placed only when its indices are
within those dimensions. -/
def buildGrid (rowsD : List (Nat × List (Nat × String))) : List (List String) :=
  let nrows := rowsD.length
  let ncols := maxColsOf rowsD
  rowsD.foldl (fun g rv =>
    rv.2.foldl (fun g2 cv =>
      if rv.1 < nrows ∧ cv.1 < ncols then setGridCell g2 rv.1 cv.1 cv.2 else g2) g)
    (List.replicate nrows (List.replicate ncols ""))

/-- The document produced by the flow-text writer: paragraphs as run-text
lists, tables as dense grids of cell texts. -/
structure WordDocOut where
  paragraphs : List (List String)
  tables : List (List (List String))
deriving DecidableEq, Repr

/-- Embedding of `DocumentParser.save_as_word_original` (lines 379-453):
blocks are split into table-cell and paragraph blocks (order preserved),
paragraphs are stably sorted by paragraph index and emitted with their runs,
tables are rebuilt from the nested `table_data` dictionary. -/
def save_as_word_original (content : DocumentContent) : WordDocOut :=
  { paragraphs := (sortByParaKey (content.text_content.filter
      fun b => !(isTableCellBlock b))).map wordParagraphOut,
    tables := (wordTableData (content.text_content.filter isTableCellBlock)).map
      fun tv => buildGrid tv.2 }

/-- Python `location.get('slide_index', 0)` (line 467). -/
def slideKey (b : Fragment) : Nat := b.location.slide_index.getD 0

/-- Python `location.get('shape_index', 0) == 0` (line 487). -/
def isTitleBlock (b : Fragment) : Bool := decide (b.location.shape_index.getD 0 = 0)

/-- The `slide_data` dictionary of `save_as_powerpoint_original`
(lines 464-472). -/
def slideDataOf (content : DocumentContent) : List (Nat × List Fragment) :=
  content.text_content.foldl
    (fun d b => dictUpdate d (slideKey b) [] (fun bs => bs ++ [b])) []

def insertSortedNat (x : Nat) : List Nat → List Nat
  | [] => [x]
  | y :: ys => if x ≤ y then x :: y :: ys else y :: insertSortedNat x ys

/-- Embedding of Python `sorted` on the slide keys (line 475). -/
def sortNat (l : List Nat) : List Nat := l.foldr insertSortedNat []

theorem mem_insertSortedNat {x a : Nat} :
    ∀ {l : List Nat}, a ∈ insertSortedNat x l ↔ a = x ∨ a ∈ l := by
  intro l
  induction l with
  | nil => simp [insertSortedNat]
  | cons y ys ih =>
    by_cases h : x ≤ y
    · simp [insertSortedNat, h]
    · simp [insertSortedNat, h, ih]
      tauto

theorem mem_sortNat {a : Nat} : ∀ {l : List Nat}, a ∈ sortNat l ↔ a ∈ l := by
  intro l
  induction l with
  | nil => simp [sortNat]
  | cons y ys ih =>
    simp only [sortNat, List.foldr_cons]
    rw [mem_insertSortedNat]
    simp only [sortNat] at ih
    simp [ih]

/-- One slide of the deck produced by the slide-deck writer: the title
placeholder text (when set) and the body paragraphs added to the content
placeholder, in order. -/
structure PptSlideOut where
  title : Option String := none
  body : List String := []
deriving DecidableEq, Repr

/-- Embedding of `DocumentParser.save_as_powerpoint_original` (lines 455-511):
one new slide per distinct slide index in ascending order; the blocks whose
shape index (default 0) is 0 are the title candidates, of which only the first
is written into the title placeholder; every other block becomes one body
paragraph in order. The layout-1 slide used (line 476) provides both a title
shape and a content placeholder, so the guards at lines 493 and 497 pass
whenever the corresponding block lists are nonempty. -/
def save_as_powerpoint_original (content : DocumentContent) : List PptSlideOut :=
  (sortNat ((slideDataOf content).map Prod.fst)).map fun k =>
    let blocks := dictGet (slideDataOf content) k []
    { title := ((blocks.filter isTitleBlock).head?).map Fragment.text,
      body := (blocks.filter fun b => !(isTitleBlock b)).map Fragment.text }

/-! ## The OpenAI translator (`translator.py`, class `OpenAITranslator`)

The chat-completion network call is a parameter (`net` for the per-text call
of `translate`, `netB` for the combined batch call); its `PyResult` covers
both a returned response text and a raised exception. -/

/-- Successful translation of an empty text: `TranslationResult(success=True,
translated_text="", original_text=text)`. -/
def trivialResult (t : String) : TranslationResult :=
  { success := true, translated_text := "", original_text := t }

/-- Embedding of `_post_process_translation` (translator.py lines 256-266):
strip one pair of surrounding double quotes, then return the original when the
translation differs only in case. -/
def post_process_translation (translated original : String) : String :=
  let t := if pyStartsWith translated "\"" ∧ pyEndsWith translated "\"" then
      String.mk (translated.data.drop 1).dropLast
    else translated
  if t.toLower = original.toLower then original else t

/-- Embedding of `OpenAITranslator.translate` (lines 100-152): empty-stripped
text returns a trivially-successful empty result before any network call; a
raised network exception returns a failure result carrying the original
text. -/
def openai_translate (net : String → PyResult String) (text : String) :
    TranslationResult :=
  if pyStrip text = "" then trivialResult text
  else
    match net text with
    | .ok resp =>
      { success := true,
        translated_text := post_process_translation (pyStrip resp) text,
        original_text := text }
    | .exc e =>
      { success := false, error_message := "OpenAI 번역 오류: " ++ e,
        original_text := text }

/-- Embedding of `BaseTranslator.translate_batch` (lines 55-62): one
`translate` call per text, in order (the inter-call `time.sleep(0.1)` is real
time and leaves no trace on the results). -/
def base_translate_batch (net : String → PyResult String) (texts : List String) :
    List TranslationResult :=
  texts.map (openai_translate net)

/-- The numbered text block of the combined batch prompt (lines 183-188). -/
def combinedPrompt (ts : List String) : String :=
  String.intercalate "\n"
    ((pyEnum ts).map fun it => "[" ++ toString (it.1 + 1) ++ "] " ++ it.2)

/-- Embedding of the per-line parse of `_parse_batch_response` (lines
238-248): a stripped line starting with a bracket and containing a closing
bracket at a positive position yields the stripped text after that bracket. -/
def parse_line (line : String) : Option String :=
  let l := pyStrip line
  if pyStartsWith l "[" ∧ l.data.contains ']' then
    match l.data.findIdx? (fun c => c == ']') with
    | some j => if 0 < j then some (pyStrip (String.mk (l.data.drop (j + 1)))) else none
    | none => none
  else none

/-- Embedding of `_parse_batch_response` (lines 233-254): collect the parsed
lines, pad with empty strings up to `expected`, truncate to `expected`. -/
def parse_batch_response (resp : String) (expected : Nat) : List String :=
  let results := (pySplit resp "\n").filterMap parse_line
  (results ++ List.replicate (expected - results.length) "").take expected

/-- The result written for one filtered entry `kit = (k, (original_idx,
text))` of `_translate_batch_combined` (lines 206-219): a success with the
`k`-th parsed translation when one exists, a parse failure otherwise. -/
def fillVal (translated : List String) (kit : Nat × (Nat × String)) :
    TranslationResult :=
  if h : kit.1 < translated.length then
    { success := true, translated_text := translated.get ⟨kit.1, h⟩,
      original_text := kit.2.2 }
  else
    { success := false, error_message := "배치 응답 파싱 실패",
      original_text := kit.2.2 }

/-- The result-array fill of `_translate_batch_combined` (lines 205-219):
starting from `[None] * n`, position `original_idx` of each filtered entry is
set to its `fillVal`. -/
def combined_fill (n : Nat) (filtered : List (Nat × String))
    (translated : List String) : List (Option TranslationResult) :=
  (pyEnum filtered).foldl
    (fun arr kit => arr.set kit.2.1 (some (fillVal translated kit)))
    (List.replicate n none)

/-- Embedding of `_translate_batch_combined` (lines 163-231): empty input
gives an empty result list; a batch of only empty-stripped texts gives
trivially-successful results without a network call; otherwise one network
call is made on the numbered prompt of the nonempty texts, its response is
parsed, results are placed back at the original indices and the remaining
(empty-text) positions are filled with trivially-successful results. A raised
network exception yields one failure result per input text. -/
def filteredTexts (texts : List String) : List (Nat × String) :=
  (pyEnum texts).filter fun it => decide (pyStrip it.2 ≠ "")

def translate_batch_combined (netB : String → PyResult String)
    (texts : List String) : List TranslationResult :=
  if texts.isEmpty then []
  else
    if (filteredTexts texts).isEmpty then texts.map trivialResult
    else
      match netB (combinedPrompt ((filteredTexts texts).map Prod.snd)) with
      | .exc e => texts.map fun t =>
          { success := false, error_message := "OpenAI 배치 번역 오류: " ++ e,
            original_text := t }
      | .ok resp =>
        let translated := parse_batch_response (pyStrip resp) (filteredTexts texts).length
        ((combined_fill texts.length (filteredTexts texts) translated).zip texts).map
          fun rt => rt.1.getD (trivialResult rt.2)

/-- Embedding of `OpenAITranslator.translate_batch` (lines 154-161): at most
five texts go through the combined request, more go through the per-text base
implementation. -/
def openai_translate_batch (net netB : String → PyResult String)
    (texts : List String) : List TranslationResult :=
  if texts.length ≤ 5 then translate_batch_combined netB texts
  else base_translate_batch net texts

theorem pyEnumFrom_getElem {α : Type} :
    ∀ {l : List α} {j i : Nat} {x : α}, (i, x) ∈ pyEnumFrom j l →
      j ≤ i ∧ l[i - j]? = some x := by
  intro l
  induction l with
  | nil => intro j i x h; simp [pyEnumFrom] at h
  | cons y ys ih =>
    intro j i x h
    rcases List.mem_cons.mp h with h1 | h1
    · rw [Prod.mk.injEq] at h1
      obtain ⟨h2, h3⟩ := h1
      subst h2
      subst h3
      simp
    · obtain ⟨hle, hget⟩ := ih h1
      refine ⟨by omega, ?_⟩
      have hd : i - j = (i - (j + 1)) + 1 := by omega
      rw [hd, List.getElem?_cons_succ]
      exact hget

theorem pyEnum_getElem {α : Type} {l : List α} {i : Nat} {x : α}
    (h : (i, x) ∈ pyEnum l) : l[i]? = some x := by
  have := pyEnumFrom_getElem h
  simpa using this.2

theorem fillVal_original (translated : List String) (kit : Nat × (Nat × String)) :
    (fillVal translated kit).original_text = kit.2.2 := by
  unfold fillVal
  by_cases h : kit.1 < translated.length <;> simp [h]

theorem combined_fill_aux_length (translated : List String) :
    ∀ (L : List (Nat × (Nat × String))) (acc : List (Option TranslationResult)),
      (L.foldl (fun arr kit => arr.set kit.2.1 (some (fillVal translated kit))) acc).length
        = acc.length := by
  intro L
  induction L with
  | nil => intro acc; rfl
  | cons kit L2 ih =>
    intro acc
    simp only [List.foldl_cons]
    rw [ih]
    simp

theorem combined_fill_length (n : Nat) (filtered : List (Nat × String))
    (translated : List String) : (combined_fill n filtered translated).length = n := by
  unfold combined_fill
  rw [combined_fill_aux_length]
  simp

theorem combined_fill_aux_untouched (translated : List String) :
    ∀ (L : List (Nat × (Nat × String))) (acc : List (Option TranslationResult)) (i : Nat),
      (∀ kit ∈ L, kit.2.1 ≠ i) →
      (L.foldl (fun arr kit => arr.set kit.2.1 (some (fillVal translated kit))) acc)[i]?
        = acc[i]? := by
  intro L
  induction L with
  | nil => intro acc i _; rfl
  | cons kit L2 ih =>
    intro acc i h
    simp only [List.foldl_cons]
    rw [ih _ _ (fun kit2 h2 => h kit2 (List.mem_cons.mpr (Or.inr h2)))]
    rw [List.getElem?_set]
    rw [if_neg (h kit (by simp))]

theorem combined_fill_aux_invariant (translated : List String)
    (P : Nat → TranslationResult → Prop) :
    ∀ (L : List (Nat × (Nat × String))) (acc : List (Option TranslationResult)),
      (∀ i r, acc[i]? = some (some r) → P i r) →
      (∀ kit ∈ L, P kit.2.1 (fillVal translated kit)) →
      ∀ i r,
        (L.foldl (fun arr kit => arr.set kit.2.1 (some (fillVal translated kit))) acc)[i]?
          = some (some r) → P i r := by
  intro L
  induction L with
  | nil => intro acc hacc _ i r h; exact hacc i r h
  | cons kit L2 ih =>
    intro acc hacc hL i r h
    simp only [List.foldl_cons] at h
    refine ih _ ?_ (fun kit2 h2 => hL kit2 (List.mem_cons.mpr (Or.inr h2))) i r h
    intro i2 r2 h2
    rw [List.getElem?_set] at h2
    by_cases he : kit.2.1 = i2
    · rw [if_pos he] at h2
      by_cases hlt : kit.2.1 < acc.length
      · rw [if_pos hlt] at h2
        obtain rfl : fillVal translated kit = r2 := by simpa using h2
        exact he ▸ hL kit (by simp)
      · rw [if_neg hlt] at h2
        simp at h2
    · rw [if_neg he] at h2
      exact hacc i2 r2 h2

theorem translate_batch_combined_length (netB : String → PyResult String)
    (texts : List String) :
    (translate_batch_combined netB texts).length = texts.length := by
  unfold translate_batch_combined
  by_cases h1 : texts.isEmpty
  · rw [List.isEmpty_iff] at h1
    subst h1
    simp
  · rw [if_neg h1]
    by_cases h2 : (filteredTexts texts).isEmpty
    · rw [if_pos h2]
      simp
    · rw [if_neg h2]
      cases netB (combinedPrompt ((filteredTexts texts).map Prod.snd)) with
      | ok resp =>
        simp only [List.length_map, List.length_zip, combined_fill_length]
        omega
      | exc e => simp

theorem openai_translate_original (net : String → PyResult String) (t : String) :
    (openai_translate net t).original_text = t := by
  unfold openai_translate
  by_cases h : pyStrip t = ""
  · simp [h, trivialResult]
  · rw [if_neg h]
    cases net t <;> simp

theorem mem_filteredTexts {texts : List String} {it : Nat × String}
    (h : it ∈ filteredTexts texts) : texts[it.1]? = some it.2 ∧ pyStrip it.2 ≠ "" := by
  unfold filteredTexts at h
  have h1 := List.mem_filter.mp h
  obtain ⟨i, x⟩ := it
  exact ⟨pyEnum_getElem h1.1, by simpa using h1.2⟩

theorem combined_fill_filtered_original (texts translated : List String) (i : Nat)
    (r : TranslationResult)
    (h : (combined_fill texts.length (filteredTexts texts) translated)[i]? = some (some r)) :
    texts[i]? = some r.original_text := by
  unfold combined_fill at h
  refine combined_fill_aux_invariant translated
    (fun i2 r2 => texts[i2]? = some r2.original_text) _ _ ?_ ?_ i r h
  · intro i2 r2 h2
    rw [List.getElem?_replicate] at h2
    by_cases h3 : i2 < texts.length
    · simp [h3] at h2
    · simp [h3] at h2
  · intro kit hkit
    rw [fillVal_original]
    exact (mem_filteredTexts (mem_pyEnum hkit)).1

theorem combined_fill_empty_pos (texts translated : List String) (i : Nat) (t : String)
    (ht : texts[i]? = some t) (he : pyStrip t = "") :
    (combined_fill texts.length (filteredTexts texts) translated)[i]? = some none := by
  unfold combined_fill
  rw [combined_fill_aux_untouched]
  · rw [List.getElem?_replicate, if_pos]
    rw [List.getElem?_eq_some] at ht
    exact ht.1
  · intro kit hkit heq
    obtain ⟨hget, hne⟩ := mem_filteredTexts (mem_pyEnum hkit)
    rw [heq, ht] at hget
    apply hne
    obtain rfl : t = kit.2.2 := by simpa using hget
    exact he

theorem translate_batch_combined_original (netB : String → PyResult String)
    (texts : List String) (i : Nat) :
    ((translate_batch_combined netB texts)[i]?).map TranslationResult.original_text
      = texts[i]? := by
  unfold translate_batch_combined
  by_cases h1 : texts.isEmpty
  · rw [List.isEmpty_iff] at h1; subst h1; simp
  · rw [if_neg h1]
    by_cases h2 : (filteredTexts texts).isEmpty
    · rw [if_pos h2, List.getElem?_map]
      cases texts[i]? <;> simp [trivialResult]
    · rw [if_neg h2]
      cases hnet : netB (combinedPrompt ((filteredTexts texts).map Prod.snd)) with
      | exc e =>
        rw [List.getElem?_map]
        cases texts[i]? <;> simp
      | ok resp =>
        rw [List.getElem?_map]
        by_cases hlt : i < texts.length
        · have ht : texts[i]? = some (texts.get ⟨i, hlt⟩) := List.getElem?_eq_getElem hlt
          have hfl : i < (combined_fill texts.length (filteredTexts texts)
              (parse_batch_response (pyStrip resp) (filteredTexts texts).length)).length := by
            rw [combined_fill_length]; exact hlt
          have ho := List.getElem?_eq_getElem hfl
          have hz : ((combined_fill texts.length (filteredTexts texts)
              (parse_batch_response (pyStrip resp) (filteredTexts texts).length)).zip
                texts)[i]?
              = some ((combined_fill texts.length (filteredTexts texts)
                  (parse_batch_response (pyStrip resp) (filteredTexts texts).length)).get
                    ⟨i, hfl⟩,
                texts.get ⟨i, hlt⟩) := List.getElem?_zip_eq_some.mpr ⟨ho, ht⟩
          rw [hz]
          simp only [Option.map_some']
          cases hov : (combined_fill texts.length (filteredTexts texts)
              (parse_batch_response (pyStrip resp) (filteredTexts texts).length)).get ⟨i, hfl⟩ with
          | none => simp [trivialResult, ht]
          | some r =>
            have hor : texts[i]? = some r.original_text := by
              refine combined_fill_filtered_original texts
                (parse_batch_response (pyStrip resp) (filteredTexts texts).length) i r ?_
              rw [ho]
              simpa [List.get_eq_getElem] using congrArg some hov
            rw [ht] at hor
            simp only [Option.getD_some]
            rw [ht]
            simpa using hor.symm
        · have hz : ((combined_fill texts.length (filteredTexts texts)
              (parse_batch_response (pyStrip resp) (filteredTexts texts).length)).zip
                texts)[i]? = none := by
            apply List.getElem?_eq_none
            simp only [List.length_zip, combined_fill_length]
            omega
          rw [hz]
          rw [List.getElem?_eq_none (by omega)]
          simp

theorem translate_batch_combined_empty_success (netB : String → PyResult String)
    (texts : List String) (i : Nat) (t : String)
    (ht : texts[i]? = some t) (he : pyStrip t = "")
    (hok : ∀ e, netB (combinedPrompt ((filteredTexts texts).map Prod.snd)) ≠ PyResult.exc e) :
    (translate_batch_combined netB texts)[i]? = some (trivialResult t) := by
  unfold translate_batch_combined
  have hlt : i < texts.length := by
    rw [List.getElem?_eq_some] at ht
    exact ht.1
  have h1 : ¬ (texts.isEmpty = true) := by
    intro hx
    rw [List.isEmpty_iff] at hx
    subst hx
    simp at hlt
  rw [if_neg h1]
  by_cases h2 : (filteredTexts texts).isEmpty
  · rw [if_pos h2, List.getElem?_map, ht]
    rfl
  · rw [if_neg h2]
    cases hnet : netB (combinedPrompt ((filteredTexts texts).map Prod.snd)) with
    | exc e => exact absurd hnet (hok e)
    | ok resp =>
      rw [List.getElem?_map]
      have hfill := combined_fill_empty_pos texts
        (parse_batch_response (pyStrip resp) (filteredTexts texts).length) i t ht he
      have hz := List.getElem?_zip_eq_some
        (z := ((none : Option TranslationResult), t)) |>.mpr ⟨hfill, ht⟩
      rw [hz]
      rfl

theorem base_translate_batch_length (net : String → PyResult String)
    (texts : List String) : (base_translate_batch net texts).length = texts.length := by
  simp [base_translate_batch]

theorem base_translate_batch_original (net : String → PyResult String)
    (texts : List String) (i : Nat) :
    ((base_translate_batch net texts)[i]?).map TranslationResult.original_text
      = texts[i]? := by
  unfold base_translate_batch
  rw [List.getElem?_map]
  cases texts[i]? <;> simp [openai_translate_original]

theorem base_translate_batch_empty_success (net : String → PyResult String)
    (texts : List String) (i : Nat) (t : String)
    (ht : texts[i]? = some t) (he : pyStrip t = "") :
    (base_translate_batch net texts)[i]? = some (trivialResult t) := by
  unfold base_translate_batch
  rw [List.getElem?_map, ht]
  simp [openai_translate, he]

/-! ## Shared facts about the manager pipeline -/

theorem texts_to_translate_length (content : DocumentContent) :
    (texts_to_translate content).length = content.text_content.length := by
  simp [texts_to_translate]

theorem batchPlan_flatten (texts : List String) : (batchPlan texts).flatten = texts := by
  unfold batchPlan
  by_cases h : texts.length > 10
  · simp only [if_pos h]
    exact chunksOf_flatten 10 (by norm_num) texts
  · simp [h]

theorem flatten_map_map {α β : Type} (f : α → β) (ll : List (List α)) :
    ((ll.map (fun c => c.map f)).flatten) = (ll.flatten).map f := by
  induction ll with
  | nil => simp
  | cons c cs ih =>
    simp only [List.map_cons, List.flatten_cons, List.map_append, ih]

theorem flatten_map_length_eq (tb : List String → List TranslationResult)
    (hlen : ∀ ts, (tb ts).length = ts.length) (ll : List (List String)) :
    ((ll.map tb).flatten).length = (ll.flatten).length := by
  induction ll with
  | nil => simp
  | cons c cs ih => simp [hlen, ih]

theorem translateResults_length (tb : List String → List TranslationResult)
    (hlen : ∀ ts, (tb ts).length = ts.length) (content : DocumentContent) :
    (translateResults tb content).length = content.text_content.length := by
  rw [translate_content_results, flatten_map_length_eq tb hlen, batchPlan_flatten,
    texts_to_translate_length]

theorem success_count_pos_iff (blocks : List Fragment)
    (results : List TranslationResult) (hlen : results.length = blocks.length) :
    (0 < success_count blocks results) ↔ ∃ r ∈ results, r.success = true := by
  unfold success_count
  rw [List.take_of_length_le (le_of_eq hlen), List.length_pos]
  constructor
  · intro h
    rcases List.exists_mem_of_ne_nil _ h with ⟨r, hr⟩
    exact ⟨r, (List.mem_filter.mp hr).1, (List.mem_filter.mp hr).2⟩
  · rintro ⟨r, hr, hs⟩ hnil
    have : r ∈ results.filter (fun r => r.success) := List.mem_filter.mpr ⟨hr, hs⟩
    rw [hnil] at this
    simp at this

/-- C1: order preservation of the translation step. For the result-application
loop of `translate_content`: at every index with a result, the fragment's
location (and formatting) is unchanged, and a successful result's translated
text is written at exactly that index. Moreover any content returned by
`translate_content` has the same number of fragments as the input, with every
fragment's location unchanged. -/
theorem C1_order_preservation :
    (∀ (blocks : List Fragment) (results : List TranslationResult) (i : Nat)
      (res : TranslationResult), i < blocks.length → results[i]? = some res →
      (((apply_results blocks results)[i]?).map Fragment.location
          = (blocks[i]?).map Fragment.location)
      ∧ (((apply_results blocks results)[i]?).map Fragment.formatting
          = (blocks[i]?).map Fragment.formatting)
      ∧ (res.success = true →
          ((apply_results blocks results)[i]?).map Fragment.text
            = some res.translated_text))
    ∧ (∀ (tb : List String → List TranslationResult) (content c' : DocumentContent),
        translate_content tb content = some c' →
        c'.text_content.length = content.text_content.length
        ∧ ∀ i : Nat, (c'.text_content[i]?).map Fragment.location
            = (content.text_content[i]?).map Fragment.location) := by
  constructor
  · intro blocks results i res hi hr
    exact ⟨apply_results_location blocks results i,
      apply_results_formatting blocks results i,
      fun hs => apply_results_text_success blocks results i res hi hr hs⟩
  · intro tb content c' h
    unfold translate_content at h
    by_cases h1 : (texts_to_translate content).isEmpty
    · rw [if_pos h1] at h
      have h3 : content = c' := Option.some.inj h
      subst h3
      exact ⟨rfl, fun i => rfl⟩
    · rw [if_neg h1] at h
      by_cases h2 : 0 < success_count content.text_content (translateResults tb content)
      · rw [if_pos h2] at h
        have h3 := Option.some.inj h
        subst h3
        exact ⟨apply_results_length _ _, fun i => apply_results_location _ _ i⟩
      · rw [if_neg h2] at h
        simp at h

/-- Witness for C1 at a concrete two-fragment content: a successful result at
index 0 rewrites the text and keeps the location, a failing result at index 1
keeps everything. -/
theorem C1_order_preservation_witness :
    (0 < 2 ∧ ([({ success := true, translated_text := "X", original_text := "a" } :
        TranslationResult),
      { success := false, error_message := "err", original_text := "b" }][0]?
        = some { success := true, translated_text := "X", original_text := "a" }))
    ∧ (((apply_results
        [{ text := "a", location := { paragraph_index := some 0 } },
         { text := "b", location := { paragraph_index := some 1 } }]
        [{ success := true, translated_text := "X", original_text := "a" },
         { success := false, error_message := "err", original_text := "b" }])[0]?).map
          Fragment.location
        = ([({ text := "a", location := { paragraph_index := some 0 } } : Fragment),
            { text := "b", location := { paragraph_index := some 1 } }][0]?).map
          Fragment.location)
    ∧ (((apply_results
        [{ text := "a", location := { paragraph_index := some 0 } },
         { text := "b", location := { paragraph_index := some 1 } }]
        [{ success := true, translated_text := "X", original_text := "a" },
         { success := false, error_message := "err", original_text := "b" }])[0]?).map
          Fragment.text = some "X") := by
  refine ⟨⟨by decide, by rfl⟩, ?_, ?_⟩
  · exact (C1_order_preservation.1 _ _ 0 _ (by decide) (by rfl)).1
  · exact (C1_order_preservation.1 _ _ 0
      { success := true, translated_text := "X", original_text := "a" }
      (by decide) (by rfl)).2.2 (by rfl)

/-- C5: partial-failure tolerance. For a translator whose batch results match
its inputs in length, and a content with at least one fragment:
`translate_content` returns a content exactly when at least one result
succeeded; in the returned content every fragment with a failed result keeps
its original text, and every fragment with a successful result carries that
result's translated text. -/
theorem C5_partial_failure_tolerance (tb : List String → List TranslationResult)
    (hlen : ∀ ts, (tb ts).length = ts.length)
    (content : DocumentContent) (hne : content.text_content ≠ []) :
    ((translate_content tb content).isSome
      ↔ ∃ r ∈ translateResults tb content, r.success = true)
    ∧ (∀ c', translate_content tb content = some c' →
        ∀ (i : Nat) (res : TranslationResult),
          (translateResults tb content)[i]? = some res →
          (res.success = false →
            (c'.text_content[i]?).map Fragment.text
              = (content.text_content[i]?).map Fragment.text)
          ∧ (res.success = true → i < content.text_content.length →
              (c'.text_content[i]?).map Fragment.text = some res.translated_text)) := by
  have hres : (translateResults tb content).length = content.text_content.length :=
    translateResults_length tb hlen content
  have hnotempty : ¬ ((texts_to_translate content).isEmpty = true) := by
    intro hx
    rw [List.isEmpty_iff] at hx
    apply hne
    have := congrArg List.length hx
    rw [texts_to_translate_length] at this
    exact List.eq_nil_of_length_eq_zero (by simpa using this)
  constructor
  · unfold translate_content
    rw [if_neg hnotempty]
    by_cases h2 : 0 < success_count content.text_content (translateResults tb content)
    · rw [if_pos h2]
      simp only [Option.isSome_some, true_iff]
      exact (success_count_pos_iff _ _ hres).mp h2
    · rw [if_neg h2]
      simp only [Option.isSome_none, Bool.false_eq_true, false_iff]
      intro hex
      exact h2 ((success_count_pos_iff _ _ hres).mpr hex)
  · intro c' h i res hr
    unfold translate_content at h
    rw [if_neg hnotempty] at h
    by_cases h2 : 0 < success_count content.text_content (translateResults tb content)
    · rw [if_pos h2] at h
      have h3 := Option.some.inj h
      subst h3
      constructor
      · intro hf
        exact apply_results_text_failure _ _ i res hr hf
      · intro hs hi
        exact apply_results_text_success _ _ i res hi hr hs
    · rw [if_neg h2] at h
      simp at h

/-- Witness for C5: five fragments, the translator fails only at index 2; the
returned content keeps the original text at index 2 and carries translated
text at index 0. -/
theorem C5_partial_failure_tolerance_witness :
    (∀ ts : List String, ((fun ts : List String => ts.mapIdx fun i t =>
        if i = 2 then ({ success := false, error_message := "err", original_text := t }
          : TranslationResult)
        else { success := true, translated_text := "T" ++ t, original_text := t }) ts).length
          = ts.length)
    ∧ (({ content_type := "word", original_format := ".docx",
          text_content := [{ text := "a" }, { text := "b" }, { text := "c" },
            { text := "d" }, { text := "e" }] } : DocumentContent).text_content ≠ [])
    ∧ (∀ c', translate_content (fun ts : List String => ts.mapIdx fun i t =>
        if i = 2 then ({ success := false, error_message := "err", original_text := t }
          : TranslationResult)
        else { success := true, translated_text := "T" ++ t, original_text := t })
          { content_type := "word", original_format := ".docx",
            text_content := [{ text := "a" }, { text := "b" }, { text := "c" },
              { text := "d" }, { text := "e" }] } = some c' →
        ((c'.text_content[2]?).map Fragment.text = some "c")
        ∧ ((c'.text_content[0]?).map Fragment.text = some "Ta")) := by
  refine ⟨fun ts => by simp, by decide, ?_⟩
  intro c' h
  have happ := (C5_partial_failure_tolerance _ (fun ts => by simp) _ (by decide)).2 c' h
  constructor
  · have h2 := (happ 2 { success := false, error_message := "err", original_text := "c" }
      (by rfl)).1 (by rfl)
    rw [h2]
    rfl
  · have h0 := (happ 0 { success := true, translated_text := "Ta", original_text := "a" }
      (by rfl)).2 (by rfl) (by decide)
    exact h0

/-- C7: batching policy. With more than ten fragment texts, the submitted
batches are the consecutive slices `texts[10*i : 10*i + 10]`, each nonempty
and of at most ten texts, and their concatenation is the full text list; with
at most ten texts a single batch carries the whole list. For a per-text
translator the concatenated per-chunk results equal the results of the single
unchunked batch, so they are applied to the fragments in the same order. The
`time.sleep(1)` pause between chunks is real-time behavior with no effect on
the results. -/
theorem C7_batching_policy (texts : List String) (f : String → TranslationResult) :
    (texts.length > 10 →
      batchPlan texts = chunksOf 10 texts
      ∧ (∀ c ∈ chunksOf 10 texts, c.length ≤ 10 ∧ c ≠ [])
      ∧ (∀ i : Nat, (chunksOf 10 texts)[i]? =
          if (texts.drop (10 * i)).isEmpty then none
          else some ((texts.drop (10 * i)).take 10))
      ∧ (chunksOf 10 texts).flatten = texts)
    ∧ (texts.length ≤ 10 → batchPlan texts = [texts])
    ∧ ((batchPlan texts).map (fun c => c.map f)).flatten = texts.map f := by
  refine ⟨?_, ?_, ?_⟩
  · intro h
    refine ⟨by simp [batchPlan, h], ?_, ?_, chunksOf_flatten 10 (by norm_num) texts⟩
    · exact fun c hc => chunksOf_mem 10 (by norm_num) texts c hc
    · exact fun i => chunksOf_getElem 10 (by norm_num) texts i
  · intro h
    have h2 : ¬ (texts.length > 10) := by omega
    simp [batchPlan, h2]
  · rw [flatten_map_map, batchPlan_flatten]

/-- Witness for C7 at twelve texts (two chunks) and at three texts (one
batch), with a concrete per-text translator. -/
theorem C7_batching_policy_witness :
    (([("a" : String), "b", "c", "d", "e", "f", "g", "h", "i", "j", "k", "l"].length > 10)
      ∧ (chunksOf 10 [("a" : String), "b", "c", "d", "e", "f", "g", "h", "i", "j", "k", "l"]).flatten
          = [("a" : String), "b", "c", "d", "e", "f", "g", "h", "i", "j", "k", "l"])
    ∧ (([("x" : String), "y", "z"].length ≤ 10)
      ∧ batchPlan [("x" : String), "y", "z"] = [[("x" : String), "y", "z"]])
    ∧ ((batchPlan [("x" : String), "y", "z"]).map
        (fun c => c.map (fun t => trivialResult t))).flatten
        = [("x" : String), "y", "z"].map (fun t => trivialResult t) := by
  refine ⟨⟨by decide, ?_⟩, ⟨by decide, ?_⟩, ?_⟩
  · exact (C7_batching_policy
      [("a" : String), "b", "c", "d", "e", "f", "g", "h", "i", "j", "k", "l"]
      (fun t => trivialResult t)).1 (by decide) |>.2.2.2
  · exact (C7_batching_policy [("x" : String), "y", "z"]
      (fun t => trivialResult t)).2.1 (by decide)
  · exact (C7_batching_policy [("x" : String), "y", "z"]
      (fun t => trivialResult t)).2.2

/-- Membership in one cell's fragment list forces the guards of `parse_excel`:
the text is the stripped cell value, nonempty, and not formula text. -/
theorem mem_excelCellBlocks {sheetName : String} {cell : ExcelCell} {b : Fragment}
    (hb : b ∈ excelCellBlocks sheetName cell) :
    ∃ v, cell.value = some v ∧ b.text = pyStrip v ∧ pyStrip v ≠ ""
      ∧ pyStartsWith (pyStrip v) "=" = false
      ∧ b.location = { sheet := some sheetName, row := some cell.row,
                       column := some cell.column,
                       coordinate := some (coordOf cell.row cell.column) } := by
  cases hv : cell.value with
  | none => simp only [excelCellBlocks, hv] at hb; simp at hb
  | some v =>
    simp only [excelCellBlocks, hv] at hb
    by_cases h1 : pyStrip v = ""
    · rw [if_pos h1] at hb; simp at hb
    · rw [if_neg h1] at hb
      by_cases h2 : pyStrip v ≠ "" ∧ pyStartsWith (pyStrip v) "=" = false
      · rw [if_pos h2] at hb
        rcases List.mem_singleton.mp hb with rfl
        exact ⟨v, rfl, rfl, h1, h2.2, rfl⟩
      · rw [if_neg h2] at hb; simp at hb

/-- C9: formula exclusion for tabular sources. A cell whose rendered value
starts with an equals sign contributes no fragment in `parse_excel`, and
consequently no fragment of a parsed workbook carries formula text. -/
theorem C9_formula_exclusion :
    (∀ (sheetName : String) (cell : ExcelCell) (v : String),
      cell.value = some v → pyStartsWith v "=" = true →
      excelCellBlocks sheetName cell = [])
    ∧ (∀ (wb : ExcelWorkbook) (b : Fragment), b ∈ (parse_excel wb).text_content →
        pyStartsWith b.text "=" = false) := by
  constructor
  · intro sheetName cell v hv hstart
    simp only [excelCellBlocks, hv]
    by_cases h1 : pyStrip v = ""
    · rw [if_pos h1]
    · rw [if_neg h1]
      have h2 : ¬ (pyStrip v ≠ "" ∧ pyStartsWith (pyStrip v) "=" = false) := by
        intro h3
        rw [pyStrip_startsWith_eq hstart] at h3
        simp at h3
      rw [if_neg h2]
  · intro wb b hb
    unfold parse_excel at hb
    simp only at hb
    rw [List.mem_flatMap] at hb
    obtain ⟨sh, _, hb⟩ := hb
    rw [List.mem_flatMap] at hb
    obtain ⟨row, _, hb⟩ := hb
    rw [List.mem_flatMap] at hb
    obtain ⟨cell, _, hb⟩ := hb
    obtain ⟨v, _, hbt, _, hstart, _⟩ := mem_excelCellBlocks hb
    rw [hbt]
    exact hstart

/-- Witness for C9: a formula cell yields no fragment; a parsed one-cell
workbook carries no formula text. -/
theorem C9_formula_exclusion_witness :
    ((({ value := some "=A1", row := 1, column := 2 } : ExcelCell).value = some "=A1")
      ∧ pyStartsWith "=A1" "=" = true
      ∧ excelCellBlocks "S" { value := some "=A1", row := 1, column := 2 } = [])
    ∧ (∀ b : Fragment, b ∈ (parse_excel
        { sheets := [{ name := "S",
                       rows := [[{ value := some "=A1", row := 1, column := 2 },
                                 { value := some "hello", row := 1, column := 3 }]] }] }).text_content →
        pyStartsWith b.text "=" = false) := by
  refine ⟨⟨rfl, by decide, ?_⟩, ?_⟩
  · exact C9_formula_exclusion.1 "S" { value := some "=A1", row := 1, column := 2 }
      "=A1" rfl (by decide)
  · intro b hb
    exact C9_formula_exclusion.2 _ b hb

/-- C4 (amended): each reader guards every `add_text_block` call with a
trimmed-nonemptiness check at the call site, so after reading any document no
fragment's text is empty after stripping. (The method itself appends
unconditionally, and translation can break the invariant; see the
counterexample.) -/
theorem C4_reader_invariant :
    (∀ (wb : ExcelWorkbook) (b : Fragment), b ∈ (parse_excel wb).text_content →
      pyStrip b.text ≠ "")
    ∧ (∀ (doc : WordDoc) (b : Fragment), b ∈ (parse_word doc).text_content →
        pyStrip b.text ≠ "")
    ∧ (∀ (prs : PptPresentation) (b : Fragment), b ∈ (parse_powerpoint prs).text_content →
        pyStrip b.text ≠ "")
    ∧ (∀ (pdf : PdfDoc) (b : Fragment), b ∈ (parse_pdf pdf).text_content →
        pyStrip b.text ≠ "") := by
  refine ⟨?_, ?_, ?_, ?_⟩
  · intro wb b hb
    unfold parse_excel at hb
    simp only at hb
    rw [List.mem_flatMap] at hb
    obtain ⟨sh, _, hb⟩ := hb
    rw [List.mem_flatMap] at hb
    obtain ⟨row, _, hb⟩ := hb
    rw [List.mem_flatMap] at hb
    obtain ⟨cell, _, hb⟩ := hb
    obtain ⟨v, _, hbt, hne, _, _⟩ := mem_excelCellBlocks hb
    rw [hbt, pyStrip_idem]
    exact hne
  · intro doc b hb
    unfold parse_word at hb
    simp only at hb
    rw [List.mem_append] at hb
    rcases hb with hb | hb
    · rw [List.mem_flatMap] at hb
      obtain ⟨ip, _, hb⟩ := hb
      unfold wordParagraphBlocks at hb
      by_cases h1 : pyStrip ip.2.text = ""
      · rw [if_pos h1] at hb; simp at hb
      · rw [if_neg h1] at hb
        rcases List.mem_singleton.mp hb with rfl
        exact h1
    · rw [List.mem_flatMap] at hb
      obtain ⟨it, _, hb⟩ := hb
      rw [List.mem_flatMap] at hb
      obtain ⟨ir, _, hb⟩ := hb
      rw [List.mem_flatMap] at hb
      obtain ⟨ic, _, hb⟩ := hb
      unfold wordTableCellBlocks at hb
      by_cases h1 : pyStrip ic.2 = ""
      · rw [if_pos h1] at hb; simp at hb
      · rw [if_neg h1] at hb
        rcases List.mem_singleton.mp hb with rfl
        rw [pyStrip_idem]
        exact h1
  · intro prs b hb
    unfold parse_powerpoint at hb
    simp only at hb
    rw [List.mem_flatMap] at hb
    obtain ⟨isl, _, hb⟩ := hb
    rw [List.mem_flatMap] at hb
    obtain ⟨ish, _, hb⟩ := hb
    unfold pptShapeBlocks at hb
    by_cases h1 : ish.2.has_text ∧ pyStrip ish.2.text ≠ ""
    · rw [if_pos h1] at hb
      by_cases h2 : ish.2.has_text_frame
      · rw [if_pos h2] at hb
        rw [List.mem_flatMap] at hb
        obtain ⟨ip, _, hb⟩ := hb
        by_cases h3 : pyStrip ip.2.text ≠ ""
        · rw [if_pos h3] at hb
          rcases List.mem_singleton.mp hb with rfl
          exact h3
        · rw [if_neg h3] at hb; simp at hb
      · rw [if_neg h2] at hb
        rcases List.mem_singleton.mp hb with rfl
        exact h1.2
    · rw [if_neg h1] at hb; simp at hb
  · intro pdf b hb
    unfold parse_pdf at hb
    simp only at hb
    rw [List.mem_flatMap] at hb
    obtain ⟨ip, _, hb⟩ := hb
    cases hx : ip.2.extract with
    | exc e => simp only [pdfPageBlocks, hx] at hb; simp at hb
    | ok page_text =>
      simp only [pdfPageBlocks, hx] at hb
      by_cases h1 : pyStrip page_text = ""
      · rw [if_pos h1] at hb; simp at hb
      · rw [if_neg h1] at hb
        rw [List.mem_flatMap] at hb
        obtain ⟨iq, _, hb⟩ := hb
        by_cases h2 : pyStrip iq.2 ≠ ""
        · rw [if_pos h2] at hb
          rcases List.mem_singleton.mp hb with rfl
          rw [pyStrip_idem]
          exact h2
        · rw [if_neg h2] at hb; simp at hb

/-- Witness for C4 at a concrete workbook, document, deck and PDF. -/
theorem C4_reader_invariant_witness :
    (∀ b : Fragment, b ∈ (parse_excel
        { sheets := [{ name := "S",
                       rows := [[{ value := some " x ", row := 1, column := 1 }]] }] }).text_content →
      pyStrip b.text ≠ "")
    ∧ (∀ b : Fragment, b ∈ (parse_word
        { paragraphs := [{ text := "p" }], tables := [[[" c "]]] }).text_content →
        pyStrip b.text ≠ "")
    ∧ (∀ b : Fragment, b ∈ (parse_powerpoint
        { slides := [[{ text := "Hello",
                        paragraphs := [{ text := "Hello" }] }]] }).text_content →
        pyStrip b.text ≠ "")
    ∧ (∀ b : Fragment, b ∈ (parse_pdf
        { pages := [{ extract := PyResult.ok "one\n\ntwo" }] }).text_content →
        pyStrip b.text ≠ "") := by
  exact ⟨fun b hb => C4_reader_invariant.1 _ b hb,
    fun b hb => C4_reader_invariant.2.1 _ b hb,
    fun b hb => C4_reader_invariant.2.2.1 _ b hb,
    fun b hb => C4_reader_invariant.2.2.2 _ b hb⟩

/-- C4 counterexample: `add_text_block` itself appends a whitespace-only text
(nothing is dropped), and the translation step applied to a nonempty fragment
can leave an empty text when the batch response parses to an empty
translation, so the invariant is neither established by `add_text_block` nor
preserved by translation. -/
theorem C4_empty_fragment_counterexample :
    ((({} : DocumentContent).add_text_block " " {} {}).text_content.length = 1
      ∧ ((({} : DocumentContent).add_text_block " " {} {}).text_content.map
          (fun b => pyStrip b.text)) = [""])
    ∧ (translate_batch_combined (fun _ => PyResult.ok "no numbered lines") ["hi"]
        = [{ success := true, translated_text := "", original_text := "hi" }])
    ∧ (pyStrip "hi" ≠ ""
      ∧ translate_content
          (fun ts => translate_batch_combined (fun _ => PyResult.ok "no numbered lines") ts)
          { content_type := "word", original_format := ".docx",
            text_content := [{ text := "hi" }] }
        = some { content_type := "word", original_format := ".docx",
                 text_content := [{ text := "" }] }) := by
  refine ⟨⟨by decide, by decide⟩, by decide, by decide, by decide⟩

/-- C6 counterexample: the three failure modes are not distinct outcomes for
the caller — a missing file, an unsupported extension and a library parse
failure all make `parse_document` return the same value, `none`. -/
theorem C6_uniform_failure_counterexample :
    parse_document { fileExists := false, ext := ".xlsx" } = none
    ∧ parse_document { fileExists := true, ext := ".txt" } = none
    ∧ parse_document { fileExists := true, ext := ".xlsx" } = none
    ∧ parse_document { fileExists := false, ext := ".xlsx" }
        = parse_document { fileExists := true, ext := ".txt" }
    ∧ parse_document { fileExists := true, ext := ".txt" }
        = parse_document { fileExists := true, ext := ".xlsx" } := by
  exact ⟨rfl, rfl, rfl, rfl, rfl⟩

/-- C6 (amended): `parse_document` internally raises `FileNotFoundError` for a
missing path and `ValueError` for an unsupported extension, and each format
parser returns no content on a library failure — but the surrounding `except`
clause catches every exception, so the caller receives `None` in every failure
case (the distinction survives only in the log); no partial content is
returned by `parse_document` except through the per-page skip inside the PDF
reader. -/
theorem C6_parse_document_failure_modes :
    (∀ f : PyFile, f.fileExists = false →
      parse_document_inner f = PyResult.exc "FileNotFoundError" ∧ parse_document f = none)
    ∧ (∀ f : PyFile, f.fileExists = true → supported_formats.contains f.ext = false →
      parse_document_inner f = PyResult.exc "ValueError" ∧ parse_document f = none)
    ∧ (∀ f : PyFile, f.fileExists = true → f.ext = ".xlsx" → f.excelData = none →
        parse_document_inner f = PyResult.ok none ∧ parse_document f = none)
    ∧ (∀ f : PyFile, f.fileExists = true → f.ext = ".docx" → f.wordData = none →
        parse_document f = none)
    ∧ (∀ f : PyFile, f.fileExists = true → f.ext = ".pptx" → f.pptData = none →
        parse_document f = none)
    ∧ (∀ f : PyFile, f.fileExists = true → f.ext = ".pdf" → f.pdfData = none →
        parse_document f = none)
    ∧ (∀ (f : PyFile) (wb : ExcelWorkbook), f.fileExists = true → f.ext = ".xlsx" →
        f.excelData = some wb → parse_document f = some (parse_excel wb)) := by
  refine ⟨?_, ?_, ?_, ?_, ?_, ?_, ?_⟩
  · intro f h
    unfold parse_document parse_document_inner
    rw [h]
    exact ⟨rfl, rfl⟩
  · intro f h1 h2
    unfold parse_document parse_document_inner
    rw [h1, h2]
    exact ⟨rfl, rfl⟩
  · intro f h1 h2 h3
    unfold parse_document parse_document_inner
    rw [h1, h2, h3]
    exact ⟨by simp [supported_formats], by simp [supported_formats]⟩
  · intro f h1 h2 h3
    unfold parse_document parse_document_inner
    rw [h1, h2, h3]
    simp [supported_formats]
  · intro f h1 h2 h3
    unfold parse_document parse_document_inner
    rw [h1, h2, h3]
    simp [supported_formats]
  · intro f h1 h2 h3
    unfold parse_document parse_document_inner
    rw [h1, h2, h3]
    simp [supported_formats]
  · intro f wb h1 h2 h3
    unfold parse_document parse_document_inner
    rw [h1, h2, h3]
    simp [supported_formats]

/-- Witness for C6 at concrete files: a missing file, a `.txt` file, and an
unreadable `.xlsx` file. -/
theorem C6_parse_document_failure_modes_witness :
    (parse_document_inner { fileExists := false, ext := ".xlsx" }
        = PyResult.exc "FileNotFoundError")
    ∧ (parse_document_inner { fileExists := true, ext := ".txt" }
        = PyResult.exc "ValueError")
    ∧ (parse_document { fileExists := true, ext := ".xlsx" } = none)
    ∧ (parse_document { fileExists := true, ext := ".xlsx",
                        excelData := some { sheets := [] } }
        = some (parse_excel { sheets := [] })) := by
  refine ⟨?_, ?_, ?_, ?_⟩
  · exact (C6_parse_document_failure_modes.1 { fileExists := false, ext := ".xlsx" } rfl).1
  · exact (C6_parse_document_failure_modes.2.1 { fileExists := true, ext := ".txt" }
      rfl (by decide)).1
  · exact (C6_parse_document_failure_modes.2.2.1 { fileExists := true, ext := ".xlsx" }
      rfl rfl rfl).2
  · exact C6_parse_document_failure_modes.2.2.2.2.2.2
      { fileExists := true, ext := ".xlsx", excelData := some { sheets := [] } }
      { sheets := [] } rfl rfl rfl

/-- C10: in the slide-deck writer, the output has one slide per distinct slide
index; a slide's title is the text of the first fragment of the group whose
shape index (defaulting to 0) is 0 — every later shape-index-0 fragment of
that slide appears nowhere in the output slide — and the body paragraphs are
exactly the texts of the fragments with nonzero shape index, in sequence
order. -/
theorem C10_slide_title_heuristic (content : DocumentContent) :
    ((save_as_powerpoint_original content).length
        = (sortNat ((slideDataOf content).map Prod.fst)).length)
    ∧ (∀ i k : Nat,
        (sortNat ((slideDataOf content).map Prod.fst))[i]? = some k →
        (save_as_powerpoint_original content)[i]? = some
          { title := (((content.text_content.filter
                fun b => decide (slideKey b = k)).filter isTitleBlock).head?).map
              Fragment.text,
            body := ((content.text_content.filter
                fun b => decide (slideKey b = k)).filter
                  fun b => !(isTitleBlock b)).map Fragment.text })
    ∧ (∀ k : Nat, (k ∈ sortNat ((slideDataOf content).map Prod.fst))
        ↔ ∃ b ∈ content.text_content, slideKey b = k) := by
  have hget : ∀ k : Nat, dictGet (slideDataOf content) k []
      = content.text_content.filter (fun b => decide (slideKey b = k)) := by
    intro k
    unfold slideDataOf
    rw [foldl_group_get slideKey]
    rfl
  refine ⟨?_, ?_, ?_⟩
  · unfold save_as_powerpoint_original
    simp
  · intro i k hik
    unfold save_as_powerpoint_original
    rw [List.getElem?_map, hik]
    simp only [Option.map_some']
    rw [hget k]
  · intro k
    rw [mem_sortNat]
    unfold slideDataOf
    rw [foldl_group_keys slideKey]
    simp

/-- A one-slide demonstration content: two shape-index-0 fragments (texts
`T1`, `T2`) and one body fragment (`B`). -/
def pptDemoFragments : List Fragment :=
  [{ text := "T1", location := { slide_index := some 0, shape_index := some 0 } },
   { text := "T2",
     location := { slide_index := some 0, shape_index := some 0,
                   paragraph_index := some 1 } },
   { text := "B", location := { slide_index := some 0, shape_index := some 1 } }]

def pptDemoContent : DocumentContent :=
  { content_type := "powerpoint", original_format := ".pptx",
    text_content := pptDemoFragments }

/-- Witness for C10 at `pptDemoContent`: the written deck is a single slide
with title `T1` and body `[B]`; `T2` is omitted. -/
theorem C10_slide_title_heuristic_witness :
    ((sortNat ((slideDataOf pptDemoContent).map Prod.fst))[0]? = some 0)
    ∧ ((save_as_powerpoint_original pptDemoContent)[0]? = some
        { title := (((pptDemoContent.text_content.filter
              fun b => decide (slideKey b = 0)).filter isTitleBlock).head?).map
            Fragment.text,
          body := ((pptDemoContent.text_content.filter
              fun b => decide (slideKey b = 0)).filter
                fun b => !(isTitleBlock b)).map Fragment.text })
    ∧ (save_as_powerpoint_original pptDemoContent
        = [{ title := some "T1", body := ["B"] }]) := by
  refine ⟨by decide, ?_, by decide⟩
  exact (C10_slide_title_heuristic pptDemoContent).2.1 0 0 (by decide)

theorem setGridCell_invariant {g : List (List String)} {r c : Nat} {t : String}
    {nrows ncols : Nat} (h1 : g.length = nrows) (h2 : ∀ row ∈ g, row.length = ncols) :
    (setGridCell g r c t).length = nrows
      ∧ ∀ row ∈ setGridCell g r c t, row.length = ncols := by
  unfold setGridCell
  by_cases hr : r < g.length
  · refine ⟨by simpa using h1, ?_⟩
    intro row hrow
    rcases List.mem_or_eq_of_mem_set hrow with h | h
    · exact h2 row h
    · subst h
      rw [List.length_set, List.getD_eq_getElem g [] hr]
      exact h2 _ (List.getElem_mem hr)
  · rw [List.set_eq_of_length_le (by omega)]
    exact ⟨h1, h2⟩

theorem foldl_setrow_invariant (nrows ncols r : Nat) :
    ∀ (cells : List (Nat × String)) (g : List (List String)),
      g.length = nrows → (∀ row ∈ g, row.length = ncols) →
      ((cells.foldl (fun g2 cv =>
          if r < nrows ∧ cv.1 < ncols then setGridCell g2 r cv.1 cv.2 else g2) g).length
            = nrows
        ∧ ∀ row ∈ cells.foldl (fun g2 cv =>
            if r < nrows ∧ cv.1 < ncols then setGridCell g2 r cv.1 cv.2 else g2) g,
          row.length = ncols) := by
  intro cells
  induction cells with
  | nil => intro g h1 h2; exact ⟨h1, h2⟩
  | cons cv cells2 ih =>
    intro g h1 h2
    simp only [List.foldl_cons]
    by_cases hc : r < nrows ∧ cv.1 < ncols
    · rw [if_pos hc]
      obtain ⟨h3, h4⟩ := setGridCell_invariant h1 h2
      exact ih _ h3 h4
    · rw [if_neg hc]
      exact ih _ h1 h2

theorem foldl_setcells_invariant (nrows ncols : Nat) :
    ∀ (rows2 : List (Nat × List (Nat × String))) (g : List (List String)),
      g.length = nrows → (∀ row ∈ g, row.length = ncols) →
      ((rows2.foldl (fun g0 rv => rv.2.foldl (fun g2 cv =>
          if rv.1 < nrows ∧ cv.1 < ncols then setGridCell g2 rv.1 cv.1 cv.2 else g2) g0)
          g).length = nrows
        ∧ ∀ row ∈ rows2.foldl (fun g0 rv => rv.2.foldl (fun g2 cv =>
            if rv.1 < nrows ∧ cv.1 < ncols then setGridCell g2 rv.1 cv.1 cv.2 else g2) g0)
            g,
          row.length = ncols) := by
  intro rows2
  induction rows2 with
  | nil => intro g h1 h2; exact ⟨h1, h2⟩
  | cons rv rows3 ih =>
    intro g h1 h2
    simp only [List.foldl_cons]
    obtain ⟨h3, h4⟩ := foldl_setrow_invariant nrows ncols rv.1 rv.2 g h1 h2
    exact ih _ h3 h4

theorem buildGrid_dims (rowsD : List (Nat × List (Nat × String))) :
    (buildGrid rowsD).length = rowsD.length
    ∧ ∀ row ∈ buildGrid rowsD, row.length = maxColsOf rowsD := by
  have h := foldl_setcells_invariant rowsD.length (maxColsOf rowsD) rowsD
    (List.replicate rowsD.length (List.replicate (maxColsOf rowsD) "")) (by simp)
    (by
      intro row hrow
      rw [List.eq_of_mem_replicate hrow]
      simp)
  exact h

/-- Two table-cell fragments of one table: `A` at (row 0, cell 0) and `B` at
(row 1, cell 1). -/
def wordDemoContent : DocumentContent :=
  { content_type := "word", original_format := ".docx",
    text_content :=
      [{ text := "A",
         location := { table_index := some 0, row_index := some 0, cell_index := some 0,
                       element_type := some "table_cell" } },
       { text := "B",
         location := { table_index := some 0, row_index := some 1, cell_index := some 1,
                       element_type := some "table_cell" } }] }

/-- C3 counterexample: fragments for table 0 at (0,0) and (1,1) do not
reconstruct a 2x2 grid — the flow-text writer builds a 2x1 grid holding only
`A` and silently drops the (1,1) fragment. -/
theorem C3_grid_reconstruction_counterexample :
    (save_as_word_original wordDemoContent).tables = [[["A"], [""]]]
    ∧ (save_as_word_original wordDemoContent).tables ≠ [[["A", ""], ["", "B"]]] := by
  exact ⟨by decide, by decide⟩

/-- C3 (amended): the grid built for one table has one row per distinct row
index present (not max row index + 1) and a number of columns equal to the
maximum count of populated cells over those rows (not max cell index + 1);
cells inside those bounds with no fragment stay blank, and a fragment whose
row position or cell index falls outside the bounds is silently dropped. In
particular (0,0) and (1,1) give a 2x1 grid with `A` at (0,0), a blank at
(1,0), and the (1,1) fragment dropped. -/
theorem C3_grid_reconstruction_amended :
    (∀ rowsD : List (Nat × List (Nat × String)),
      (buildGrid rowsD).length = rowsD.length
      ∧ ∀ row ∈ buildGrid rowsD, row.length = maxColsOf rowsD)
    ∧ ((save_as_word_original wordDemoContent).tables = [[["A"], [""]]]) := by
  exact ⟨buildGrid_dims, by decide⟩

/-- Witness for C3 at the concrete sparse table of `wordDemoContent`. -/
theorem C3_grid_reconstruction_amended_witness :
    ((buildGrid [(0, [(0, "A")]), (1, [(1, "B")])]).length = 2
      ∧ ∀ row ∈ buildGrid [(0, [(0, "A")]), (1, [(1, "B")])], row.length = 1)
    ∧ buildGrid [(0, [(0, "A")]), (1, [(1, "B")])] = [["A"], [""]] := by
  refine ⟨?_, by decide⟩
  have h := C3_grid_reconstruction_amended.1 [(0, [(0, "A")]), (1, [(1, "B")])]
  constructor
  · exact h.1
  · intro row hrow
    have h2 := h.2 row hrow
    rwa [show maxColsOf [(0, [(0, "A")]), (1, [(1, "B")])] = 1 from by decide] at h2

/-- C8 counterexample: when the combined batch request raises, EVERY input of
the batch — including an empty-after-trim one — receives a failure result, so
an empty input string does not always map to a trivially-successful
empty-string result. -/
theorem C8_batch_contract_counterexample :
    (pyStrip " " = "")
    ∧ (openai_translate_batch (fun _ => PyResult.exc "boom")
        (fun _ => PyResult.exc "boom") ["a", " "]
        = [{ success := false, error_message := "OpenAI 배치 번역 오류: boom",
             original_text := "a" },
           { success := false, error_message := "OpenAI 배치 번역 오류: boom",
             original_text := " " }])
    ∧ (((openai_translate_batch (fun _ => PyResult.exc "boom")
        (fun _ => PyResult.exc "boom") ["a", " "])[1]?).map TranslationResult.success
        = some false) := by
  exact ⟨by decide, by decide, by decide⟩

/-- C8 (amended): `translate_batch` always returns one result per input, in
input order (result `i` carries input `i` as its original text). An input
that is empty after trimming maps to a trivially-successful empty-string
result without the network being consulted, in every case except one: when
the batch has at most five texts and the single combined network request
raises, every input of the batch — the empty ones included — receives a
failure result. -/
theorem C8_batch_contract_amended (net netB : String → PyResult String)
    (texts : List String) :
    ((openai_translate_batch net netB texts).length = texts.length)
    ∧ (∀ i : Nat, ((openai_translate_batch net netB texts)[i]?).map
        TranslationResult.original_text = texts[i]?)
    ∧ (∀ (i : Nat) (t : String), texts[i]? = some t → pyStrip t = "" →
        (texts.length ≤ 5 →
          (∀ e, netB (combinedPrompt ((filteredTexts texts).map Prod.snd))
            ≠ PyResult.exc e) →
          (openai_translate_batch net netB texts)[i]? = some (trivialResult t))
        ∧ (5 < texts.length →
          (openai_translate_batch net netB texts)[i]? = some (trivialResult t))) := by
  refine ⟨?_, ?_, ?_⟩
  · unfold openai_translate_batch
    by_cases h : texts.length ≤ 5
    · rw [if_pos h]
      exact translate_batch_combined_length netB texts
    · rw [if_neg h]
      exact base_translate_batch_length net texts
  · intro i
    unfold openai_translate_batch
    by_cases h : texts.length ≤ 5
    · rw [if_pos h]
      exact translate_batch_combined_original netB texts i
    · rw [if_neg h]
      exact base_translate_batch_original net texts i
  · intro i t ht he
    constructor
    · intro hlen hok
      unfold openai_translate_batch
      rw [if_pos hlen]
      exact translate_batch_combined_empty_success netB texts i t ht he hok
    · intro hlen
      unfold openai_translate_batch
      rw [if_neg (by omega)]
      exact base_translate_batch_empty_success net texts i t ht he

/-- Witness for C8: a two-text batch (one empty) through a responding network,
and a six-text batch (one empty) through the per-text path. -/
theorem C8_batch_contract_amended_witness :
    ((openai_translate_batch (fun _ => PyResult.ok "X") (fun _ => PyResult.ok "[1] X")
        ["a", " "]).length = 2)
    ∧ (([("a" : String), " "][1]? = some " ") ∧ pyStrip " " = ""
      ∧ ([("a" : String), " "].length ≤ 5)
      ∧ (openai_translate_batch (fun _ => PyResult.ok "X") (fun _ => PyResult.ok "[1] X")
          ["a", " "])[1]? = some (trivialResult " "))
    ∧ ((5 < [("a" : String), "b", "c", "d", "e", " "].length)
      ∧ (openai_translate_batch (fun _ => PyResult.ok "X") (fun _ => PyResult.ok "[1] X")
          ["a", "b", "c", "d", "e", " "])[5]? = some (trivialResult " ")) := by
  refine ⟨?_, ⟨by decide, by decide, by decide, ?_⟩, ⟨by decide, ?_⟩⟩
  · exact (C8_batch_contract_amended (fun _ => PyResult.ok "X")
      (fun _ => PyResult.ok "[1] X") ["a", " "]).1
  · exact ((C8_batch_contract_amended (fun _ => PyResult.ok "X")
      (fun _ => PyResult.ok "[1] X") ["a", " "]).2.2 1 " " (by decide) (by decide)).1
      (by decide) (fun e h => PyResult.noConfusion h)
  · exact ((C8_batch_contract_amended (fun _ => PyResult.ok "X")
      (fun _ => PyResult.ok "[1] X") ["a", "b", "c", "d", "e", " "]).2.2 5 " "
      (by decide) (by decide)).2 (by decide)

/-! ## Round-trip machinery for the tabular writer -/

/-- The (location, text) pairs of a content — the data the round-trip property
compares. -/
def pairsOf (c : DocumentContent) : List (Location × String) :=
  c.text_content.map fun b => (b.location, b.text)

/-- All cells of a workbook with their sheet names, in reading order. -/
def allCells (wb : ExcelWorkbook) : List (String × ExcelCell) :=
  wb.sheets.flatMap fun sh => sh.rows.flatMap fun row => row.map fun cell => (sh.name, cell)

/-- The (sheet name, row, column) address of a cell. -/
def cellAddrOf (sc : String × ExcelCell) : String × Nat × Nat :=
  (sc.1, sc.2.row, sc.2.column)

/-- A real workbook surfaced by `openpyxl` never presents the same cell
address twice; the round-trip theorem assumes this. -/
def AddrInj (wb : ExcelWorkbook) : Prop :=
  (allCells wb).Pairwise (fun a b => cellAddrOf a ≠ cellAddrOf b)

/-- Reading back the workbook written by `save_as_excel_original`: each
written sheet holds exactly its written cell values at their addresses (cell
traversal order does not matter to the pair set). -/
def writtenToWorkbook (W : List (String × List ((Nat × Nat) × String))) :
    ExcelWorkbook :=
  { sheets := W.map fun sv =>
      { name := sv.1,
        rows := [sv.2.map fun cv => { value := some cv.2, row := cv.1.1,
                                      column := cv.1.2 }] } }

/-- The shape of every fragment produced by the tabular reader. -/
def GoodExcelBlock (b : Fragment) : Prop :=
  b.location = { sheet := some (sheetKey b), row := some (cellAddr b).1,
                 column := some (cellAddr b).2,
                 coordinate := some (coordOf (cellAddr b).1 (cellAddr b).2) }
  ∧ pyStrip b.text = b.text ∧ b.text ≠ "" ∧ pyStartsWith b.text "=" = false

theorem parse_excel_good (wb : ExcelWorkbook) :
    ∀ b ∈ (parse_excel wb).text_content, GoodExcelBlock b := by
  intro b hb
  unfold parse_excel at hb
  simp only at hb
  rw [List.mem_flatMap] at hb
  obtain ⟨sh, _, hb⟩ := hb
  rw [List.mem_flatMap] at hb
  obtain ⟨row, _, hb⟩ := hb
  rw [List.mem_flatMap] at hb
  obtain ⟨cell, _, hb⟩ := hb
  obtain ⟨v, _, hbt, hne, hstart, hloc⟩ := mem_excelCellBlocks hb
  have hsk : sheetKey b = sh.name := by rw [sheetKey, hloc]; rfl
  have hca : cellAddr b = (cell.row, cell.column) := by rw [cellAddr, hloc]; rfl
  refine ⟨?_, ?_, ?_, ?_⟩
  · rw [hloc, hsk, hca]
  · rw [hbt, pyStrip_idem]
  · rw [hbt]; exact hne
  · rw [hbt]; exact hstart

theorem excelCellBlocks_addr {s : String} {cell : ExcelCell} {b : Fragment}
    (hb : b ∈ excelCellBlocks s cell) :
    (sheetKey b, cellAddr b) = (s, cell.row, cell.column) := by
  obtain ⟨v, _, _, _, _, hloc⟩ := mem_excelCellBlocks hb
  rw [sheetKey, cellAddr, hloc]
  rfl

theorem parse_excel_as_allCells (wb : ExcelWorkbook) :
    (parse_excel wb).text_content
      = (allCells wb).flatMap fun sc => excelCellBlocks sc.1 sc.2 := by
  unfold parse_excel allCells
  rw [List.flatMap_assoc]
  apply List.flatMap_congr
  intro sh _
  rw [List.flatMap_assoc]
  apply List.flatMap_congr
  intro row _
  rw [List.flatMap_map]

theorem pairwise_of_length_le_one {α : Type} {R : α → α → Prop} :
    ∀ {l : List α}, l.length ≤ 1 → l.Pairwise R := by
  intro l h
  match l with
  | [] => exact List.Pairwise.nil
  | [x] => simp
  | x :: y :: rest => simp at h

theorem excelCellBlocks_length_le (s : String) (cell : ExcelCell) :
    (excelCellBlocks s cell).length ≤ 1 := by
  cases hv : cell.value with
  | none => simp [excelCellBlocks, hv]
  | some v =>
    simp only [excelCellBlocks, hv]
    by_cases h1 : pyStrip v = ""
    · rw [if_pos h1]; simp
    · rw [if_neg h1]
      by_cases h2 : pyStrip v ≠ "" ∧ pyStartsWith (pyStrip v) "=" = false
      · rw [if_pos h2]; simp
      · rw [if_neg h2]; simp

theorem pairwise_addr_flatMap :
    ∀ (l : List (String × ExcelCell)),
      l.Pairwise (fun a b => cellAddrOf a ≠ cellAddrOf b) →
      (l.flatMap fun sc => excelCellBlocks sc.1 sc.2).Pairwise
        (fun a b => (sheetKey a, cellAddr a) ≠ (sheetKey b, cellAddr b)) := by
  intro l
  induction l with
  | nil => intro _; simp
  | cons sc rest ih =>
    intro hp
    rw [List.pairwise_cons] at hp
    simp only [List.flatMap_cons]
    rw [List.pairwise_append]
    refine ⟨pairwise_of_length_le_one (excelCellBlocks_length_le sc.1 sc.2), ih hp.2, ?_⟩
    intro x hx y hy
    have hax := excelCellBlocks_addr hx
    rw [List.mem_flatMap] at hy
    obtain ⟨sc2, hsc2, hy⟩ := hy
    have hay := excelCellBlocks_addr hy
    have hne := hp.1 sc2 hsc2
    rw [hax, hay]
    exact hne

theorem dictGet_mem_of_mem_keys {κ α : Type} [DecidableEq κ] :
    ∀ {d : List (κ × α)} {k : κ}, k ∈ d.map Prod.fst → ∀ dflt : α,
      (k, dictGet d k dflt) ∈ d := by
  intro d
  induction d with
  | nil => intro k h; simp at h
  | cons hd tl ih =>
    intro k h dflt
    obtain ⟨k', v⟩ := hd
    by_cases hk : k' = k
    · subst hk
      simp [dictGet]
    · simp only [List.map_cons, List.mem_cons] at h
      rcases h with h | h
      · exact absurd h.symm hk
      · simp only [dictGet, if_neg hk]
        exact List.mem_cons.mpr (Or.inr (ih h dflt))

theorem groupBySheet_mem_eq_filter {blocks : List Fragment} {sv : String × List Fragment}
    (h : sv ∈ groupBySheet blocks) :
    sv.2 = blocks.filter fun b => decide (sheetKey b = sv.1) := by
  have hnodup : ((groupBySheet blocks).map Prod.fst).Nodup := by
    unfold groupBySheet
    exact foldl_group_keys_nodup sheetKey blocks [] (by simp)
  have hget : dictGet (groupBySheet blocks) sv.1 []
      = blocks.filter fun b => decide (sheetKey b = sv.1) := by
    unfold groupBySheet
    rw [foldl_group_get sheetKey]
    rfl
  obtain ⟨k, vs⟩ := sv
  rw [← hget]
  exact (dictGet_of_mem_nodup hnodup h []).symm

theorem groupBySheet_keys {blocks : List Fragment} {k : String} :
    (k ∈ (groupBySheet blocks).map Prod.fst) ↔ ∃ b ∈ blocks, sheetKey b = k := by
  unfold groupBySheet
  rw [foldl_group_keys sheetKey]
  simp

theorem group_cells_eq_map {blocks : List Fragment} {s : String}
    (hpair : blocks.Pairwise
      (fun a b => (sheetKey a, cellAddr a) ≠ (sheetKey b, cellAddr b))) :
    (blocks.filter fun b => decide (sheetKey b = s)).foldl
        (fun cells b => dictInsert cells (cellAddr b) b.text) []
      = (blocks.filter fun b => decide (sheetKey b = s)).map
          fun b => (cellAddr b, b.text) := by
  have hsub : (blocks.filter fun b => decide (sheetKey b = s)).Sublist blocks :=
    List.filter_sublist blocks
  have hp2 := hpair.sublist hsub
  have hs : ∀ b ∈ blocks.filter fun b => decide (sheetKey b = s), sheetKey b = s := by
    intro b hb
    simpa using (List.mem_filter.mp hb).2
  have hp3 : (blocks.filter fun b => decide (sheetKey b = s)).Pairwise
      (fun a b => cellAddr a ≠ cellAddr b) := by
    refine List.Pairwise.imp_of_mem ?_ hp2
    intro a b ha hb h heq
    exact h (by rw [hs a ha, hs b hb, heq])
  have hnd : ((blocks.filter fun b => decide (sheetKey b = s)).map cellAddr).Nodup := by
    unfold List.Nodup
    rw [List.pairwise_map]
    exact hp3
  have h := foldl_dictInsert_eq_map cellAddr Fragment.text
    (blocks.filter fun b => decide (sheetKey b = s)) [] (by simp) hnd
  simpa using h

theorem excelCellBlocks_of_good (s t : String) (r c : Nat)
    (h1 : pyStrip t = t) (h2 : t ≠ "") (h3 : pyStartsWith t "=" = false) :
    excelCellBlocks s { value := some t, row := r, column := c }
      = [{ text := t,
           location := { sheet := some s, row := some r, column := some c,
                         coordinate := some (coordOf r c) } }] := by
  simp only [excelCellBlocks]
  rw [if_neg (by rw [h1]; exact h2)]
  rw [if_pos (by rw [h1]; exact ⟨h2, h3⟩)]
  rw [h1]

theorem mem_reread_iff (W : List (String × List ((Nat × Nat) × String)))
    (f : Fragment) :
    (f ∈ (parse_excel (writtenToWorkbook W)).text_content)
      ↔ ∃ sv ∈ W, ∃ cv ∈ sv.2,
          f ∈ excelCellBlocks sv.1 { value := some cv.2, row := cv.1.1,
                                     column := cv.1.2 } := by
  unfold parse_excel writtenToWorkbook
  simp only [List.flatMap_map, List.mem_flatMap, List.flatMap_cons, List.flatMap_nil,
    List.append_nil, List.mem_map]

/-- C2 (amended): round-trip holds for the tabular writer — for any workbook
presenting each cell address once, reading, writing with
`save_as_excel_original` and reading the written workbook back reproduces
exactly the original set of (location, text) pairs. (The flow-text and
slide-deck writers do not have this property; see the counterexample, where a
slide-deck fragment's text is absent from the written document.) -/
theorem C2_roundtrip_amended (wb : ExcelWorkbook) (hinj : AddrInj wb)
    (p : Location × String) :
    p ∈ pairsOf (parse_excel (writtenToWorkbook
        (save_as_excel_original (parse_excel wb))))
      ↔ p ∈ pairsOf (parse_excel wb) := by
  have hgood := parse_excel_good wb
  have hpair : (parse_excel wb).text_content.Pairwise
      (fun a b => (sheetKey a, cellAddr a) ≠ (sheetKey b, cellAddr b)) := by
    rw [parse_excel_as_allCells]
    exact pairwise_addr_flatMap _ hinj
  have hrhs : (p ∈ pairsOf (parse_excel wb))
      ↔ ∃ b ∈ (parse_excel wb).text_content, p = (b.location, b.text) := by
    unfold pairsOf
    rw [List.mem_map]
    constructor
    · rintro ⟨b, hb, rfl⟩; exact ⟨b, hb, rfl⟩
    · rintro ⟨b, hb, rfl⟩; exact ⟨b, hb, rfl⟩
  rw [hrhs]
  have hW : save_as_excel_original (parse_excel wb)
      = (groupBySheet (parse_excel wb).text_content).map fun sv =>
          (sv.1, sv.2.foldl (fun cells b => dictInsert cells (cellAddr b) b.text) []) :=
    rfl
  constructor
  · intro hp
    unfold pairsOf at hp
    rw [List.mem_map] at hp
    obtain ⟨f, hf, rfl⟩ := hp
    rw [mem_reread_iff] at hf
    obtain ⟨sv, hsv, cv, hcv, hf⟩ := hf
    rw [hW, List.mem_map] at hsv
    obtain ⟨gv, hgv, rfl⟩ := hsv
    have hfilter := groupBySheet_mem_eq_filter hgv
    rw [hfilter, group_cells_eq_map hpair] at hcv
    rw [List.mem_map] at hcv
    obtain ⟨b, hb, rfl⟩ := hcv
    have hbmem : b ∈ (parse_excel wb).text_content := List.mem_of_mem_filter hb
    obtain ⟨hloc, hstp, hne, hstart⟩ := hgood b hbmem
    have hsk : sheetKey b = gv.1 := by
      simpa using (List.mem_filter.mp hb).2
    rw [excelCellBlocks_of_good gv.1 b.text (cellAddr b).1 (cellAddr b).2
      hstp hne hstart] at hf
    rcases List.mem_singleton.mp hf with rfl
    refine ⟨b, hbmem, ?_⟩
    simp only
    rw [hloc, hsk]
  · rintro ⟨b, hb, rfl⟩
    unfold pairsOf
    rw [List.mem_map]
    obtain ⟨hloc, hstp, hne, hstart⟩ := hgood b hb
    refine ⟨{ text := b.text,
              location := { sheet := some (sheetKey b), row := some (cellAddr b).1,
                            column := some (cellAddr b).2,
                            coordinate := some (coordOf (cellAddr b).1
                              (cellAddr b).2) } }, ?_, ?_⟩
    · rw [mem_reread_iff]
      have hkey : sheetKey b ∈ (groupBySheet (parse_excel wb).text_content).map Prod.fst :=
        groupBySheet_keys.mpr ⟨b, hb, rfl⟩
      have hmemgrp := dictGet_mem_of_mem_keys hkey ([] : List Fragment)
      refine ⟨(sheetKey b, (dictGet (groupBySheet (parse_excel wb).text_content)
          (sheetKey b) []).foldl
            (fun cells b => dictInsert cells (cellAddr b) b.text) []), ?_, ?_⟩
      · rw [hW, List.mem_map]
        exact ⟨(sheetKey b, dictGet (groupBySheet (parse_excel wb).text_content)
          (sheetKey b) []), hmemgrp, rfl⟩
      · have hgetf : dictGet (groupBySheet (parse_excel wb).text_content) (sheetKey b) []
            = (parse_excel wb).text_content.filter
                fun x => decide (sheetKey x = sheetKey b) := by
          unfold groupBySheet
          rw [foldl_group_get sheetKey]
          rfl
        refine ⟨(cellAddr b, b.text), ?_, ?_⟩
        · rw [hgetf, group_cells_eq_map hpair, List.mem_map]
          exact ⟨b, List.mem_filter.mpr ⟨hb, by simp⟩, rfl⟩
        · rw [excelCellBlocks_of_good (sheetKey b) b.text (cellAddr b).1 (cellAddr b).2
            hstp hne hstart]
          simp
    · simp only
      rw [hloc]

/-- A one-slide deck whose single shape holds two paragraphs. -/
def pptLossPresentation : PptPresentation :=
  { slides := [[{ has_text := true, text := "Hello\nWorld", shape_type := "t",
                  has_text_frame := true,
                  paragraphs := [{ text := "Hello" }, { text := "World" }] }]] }

/-- C2 counterexample: reading this deck yields the two fragments `Hello` and
`World`, but the native-preserving slide-deck writer emits only the title
`Hello` — the text `World` appears nowhere in the written presentation, so no
re-reading of it can reproduce the extracted (location, text) pair set. -/
theorem C2_roundtrip_counterexample :
    (((parse_powerpoint pptLossPresentation).text_content.map Fragment.text)
        = ["Hello", "World"])
    ∧ (save_as_powerpoint_original (parse_powerpoint pptLossPresentation)
        = [{ title := some "Hello", body := [] }])
    ∧ ("World" ∉ ((save_as_powerpoint_original
        (parse_powerpoint pptLossPresentation)).flatMap
          fun sl => sl.title.toList ++ sl.body)) := by
  exact ⟨by decide, by decide, by decide⟩

/-- A two-cell demonstration workbook with distinct addresses. -/
def wbDemo : ExcelWorkbook :=
  { sheets := [{ name := "S",
                 rows := [[{ value := some "hi", row := 1, column := 1 },
                           { value := some "yo", row := 2, column := 1 }]] }] }

/-- The pair extracted from the first demonstration cell. -/
def pDemo : Location × String :=
  ({ sheet := some "S", row := some 1, column := some 1,
     coordinate := some (coordOf 1 1) }, "hi")

/-- Witness for C2 at a two-cell workbook with distinct addresses. -/
theorem C2_roundtrip_amended_witness :
    AddrInj wbDemo
    ∧ pDemo ∈ pairsOf (parse_excel wbDemo)
    ∧ pDemo ∈ pairsOf (parse_excel (writtenToWorkbook
        (save_as_excel_original (parse_excel wbDemo)))) := by
  refine ⟨?_, ?_, ?_⟩
  · unfold AddrInj
    decide
  · decide
  · exact (C2_roundtrip_amended wbDemo (by unfold AddrInj; decide) pDemo).mpr (by decide)
